import Mathlib

/-!
Torus index / neighbour finder.

A shallow embedding of `internal/domain/matrix.go`, `internal/domain/neighbors.go`,
`internal/domain/hasher.go` and of `ComputeSolution` in `internal/service/solver.go`.

Go's `/` and `%` on `int` truncate toward zero and are modelled by `Int.tdiv` and
`Int.tmod`.  Go's `int` is modelled twice.  The definitions with the suffix `64` are
the code as it runs on a 64-bit platform: every arithmetic operation wraps to 64
bits, a `make` with a negative length is a run-time panic (the result `none`), and
`strconv.Atoi` rejects a value outside the range of `int`.  The definitions under
the source's own names compute the same expressions over exact integers, where
nothing overflows; the two sets agree on every grid of fewer than `2 ^ 62` cells
and differ on some larger grids.  A Go `(value, error)` result is modelled by
`Except Error value`.
-/

namespace Torus

/-! ## strconv.Itoa -/

/-- Base-10 rendering of a Go `int` (`strconv.Itoa`, and the `%d` verb of `fmt`):
the decimal digits of the magnitude, preceded by `-` for a negative number. -/
def Itoa : Int → String
  | Int.ofNat m => Nat.repr m
  | Int.negSucc m => "-" ++ Nat.repr (m + 1)

/-! ## matrix.go -/

/-- The struct `TorusMatrix` of `matrix.go`. -/
structure TorusMatrix where
  width : Int
  height : Int
deriving DecidableEq

/-- The errors built with `fmt.Errorf` in the `domain` package, kept with their
payload; `Error.message` renders the text. -/
inductive Error where
  | invalidDimensions (width height : Int)
  | indexOutOfBounds (index width height : Int)
  | invalidIndex (index width height : Int)
  | convertFailed (inner : Error)
  | hashMismatch (expected calculated : String)
deriving DecidableEq

/-- The message text of each error, as formatted by `fmt.Errorf`. -/
def Error.message : Error → String
  | .invalidDimensions w h =>
      "width and height must be positive integers, got width=" ++ Itoa w ++
        ", height=" ++ Itoa h
  | .indexOutOfBounds i w h =>
      "index " ++ Itoa i ++ " is out of bounds for matrix " ++ Itoa w ++ "x" ++ Itoa h
  | .invalidIndex i w h =>
      "invalid index " ++ Itoa i ++ " for matrix dimensions " ++ Itoa w ++ "x" ++ Itoa h
  | .convertFailed inner =>
      "failed to convert index to coordinates: " ++ inner.message
  | .hashMismatch expected calculated =>
      "hash mismatch: expected " ++ expected ++ ", got " ++ calculated

/-- `NewTorusMatrix(width, height)`. -/
def NewTorusMatrix (width height : Int) : Except Error TorusMatrix :=
  if width ≤ 0 ∨ height ≤ 0 then
    .error (.invalidDimensions width height)
  else
    .ok { width := width, height := height }

/-- `(*TorusMatrix).Dimensions`. -/
def TorusMatrix.Dimensions (tm : TorusMatrix) : Int × Int :=
  (tm.width, tm.height)

/-- `(*TorusMatrix).TotalElements`, the product taken over exact integers. -/
def TorusMatrix.TotalElements (tm : TorusMatrix) : Int :=
  tm.width * tm.height

/-- `(*TorusMatrix).IndexToCoordinates` over exact integers. -/
def TorusMatrix.IndexToCoordinates (tm : TorusMatrix) (index : Int) :
    Except Error (Int × Int) :=
  if index < 0 ∨ index ≥ tm.TotalElements then
    .error (.indexOutOfBounds index tm.width tm.height)
  else
    let row := index.tdiv tm.width
    let col := index.tmod tm.width
    .ok (row, col)

/-- `(*TorusMatrix).CoordinatesToIndex` over exact integers. -/
def TorusMatrix.CoordinatesToIndex (tm : TorusMatrix) (row col : Int) : Int :=
  let wrappedRow := ((row.tmod tm.height) + tm.height).tmod tm.height
  let wrappedCol := ((col.tmod tm.width) + tm.width).tmod tm.width
  wrappedRow * tm.width + wrappedCol

/-- `(*TorusMatrix).IsValidIndex` over exact integers. -/
def TorusMatrix.IsValidIndex (tm : TorusMatrix) (index : Int) : Bool :=
  decide (index ≥ 0) && decide (index < tm.TotalElements)

/-! ## neighbors.go -/

/-- The struct `NeighborDirection` of `neighbors.go`. -/
structure NeighborDirection where
  RowOffset : Int
  ColOffset : Int
  Name : String
deriving DecidableEq

/-- The package variable `AllDirections`. -/
def AllDirections : List NeighborDirection :=
  [ ⟨-1, -1, "TopLeft"⟩,
    ⟨-1, 0, "Top"⟩,
    ⟨-1, 1, "TopRight"⟩,
    ⟨0, -1, "Left"⟩,
    ⟨0, 1, "Right"⟩,
    ⟨1, -1, "BottomLeft"⟩,
    ⟨1, 0, "Bottom"⟩,
    ⟨1, 1, "BottomRight"⟩ ]

/-- The struct `NeighborFinder`. -/
structure NeighborFinder where
  matrix : TorusMatrix
deriving DecidableEq

/-- `NewNeighborFinder(matrix)`. -/
def NewNeighborFinder (matrix : TorusMatrix) : NeighborFinder :=
  { matrix := matrix }

/-- `(*NeighborFinder).FindNeighbors` over exact integers: the `range` loop over
`AllDirections` appending to `neighbors` is a left fold. -/
def NeighborFinder.FindNeighbors (nf : NeighborFinder) (index : Int) :
    Except Error (List Int) :=
  if !nf.matrix.IsValidIndex index then
    .error (.invalidIndex index nf.matrix.width nf.matrix.height)
  else
    match nf.matrix.IndexToCoordinates index with
    | .error err => .error (.convertFailed err)
    | .ok (centerRow, centerCol) =>
      .ok (AllDirections.foldl
        (fun neighbors direction =>
          let neighborRow := centerRow + direction.RowOffset
          let neighborCol := centerCol + direction.ColOffset
          let neighborIndex := nf.matrix.CoordinatesToIndex neighborRow neighborCol
          neighbors ++ [neighborIndex])
        [])

/-! ## crypto/sha256 and encoding/base64

Models of the two library calls of `CalculateHash`: SHA-256 as specified in
FIPS 180-4 over 32-bit words kept as `Nat` reduced modulo `2 ^ 32`, and the
standard base64 encoding of RFC 4648 with `=` padding.  Bytes are `Nat` below 256. -/

/-- The UTF-8 encoding of one code point. -/
def utf8EncodeCodePoint (v : Nat) : List Nat :=
  if v ≤ 0x7f then [v]
  else if v ≤ 0x7ff then [0xc0 + v / 64 % 32, 0x80 + v % 64]
  else if v ≤ 0xffff then [0xe0 + v / 4096 % 16, 0x80 + v / 64 % 64, 0x80 + v % 64]
  else [0xf0 + v / 262144 % 8, 0x80 + v / 4096 % 64, 0x80 + v / 64 % 64, 0x80 + v % 64]

/-- The conversion `[]byte(s)`: the UTF-8 bytes of a string. -/
def stringBytes (s : String) : List Nat :=
  s.data.flatMap (fun c => utf8EncodeCodePoint c.toNat)

/-- Trial division: `n` is at least 2 and no smaller number from 2 on divides it. -/
def isPrimeNat (n : Nat) : Bool :=
  Nat.ble 2 n && (List.range n).all (fun d => Nat.blt d 2 || !(n % d == 0))

/-- The first 64 prime numbers, the primes below 312. -/
def sha256Primes : List Nat :=
  (List.range 312).filter isPrimeNat

/-- The integer part of the `k`-th root of `N`, found bit by bit from bit
`bits - 1` down. -/
def floorRoot (k N bits : Nat) : Nat :=
  (List.range bits).foldl
    (fun x j => if (x + 2 ^ (bits - 1 - j)) ^ k ≤ N then x + 2 ^ (bits - 1 - j) else x) 0

/-- The 64 round constants of SHA-256: the first 32 bits of the fractional parts
of the cube roots of the first 64 primes (see `sha256_constants_spec`). -/
def sha256K : List Nat :=
  [1116352408, 1899447441, 3049323471, 3921009573, 961987163, 1508970993, 2453635748,
   2870763221, 3624381080, 310598401, 607225278, 1426881987, 1925078388, 2162078206,
   2614888103, 3248222580, 3835390401, 4022224774, 264347078, 604807628, 770255983,
   1249150122, 1555081692, 1996064986, 2554220882, 2821834349, 2952996808, 3210313671,
   3336571891, 3584528711, 113926993, 338241895, 666307205, 773529912, 1294757372,
   1396182291, 1695183700, 1986661051, 2177026350, 2456956037, 2730485921, 2820302411,
   3259730800, 3345764771, 3516065817, 3600352804, 4094571909, 275423344, 430227734,
   506948616, 659060556, 883997877, 958139571, 1322822218, 1537002063, 1747873779,
   1955562222, 2024104815, 2227730452, 2361852424, 2428436474, 2756734187, 3204031479,
   3329325298]

/-- The initial hash value of SHA-256: the first 32 bits of the fractional parts
of the square roots of the first 8 primes (see `sha256_constants_spec`). -/
def sha256Init : List Nat :=
  [1779033703, 3144134277, 1013904242, 2773480762,
   1359893119, 2600822924, 528734635, 1541459225]

/-- Rotation of a 32-bit word to the right. -/
def rotr32 (x n : Nat) : Nat :=
  ((x >>> n) ||| (x <<< (32 - n))) % 2 ^ 32

/-- Message padding: the byte `0x80`, zero bytes up to 56 modulo 64, and the
bit length as 8 big-endian bytes. -/
def sha256Pad (msg : List Nat) : List Nat :=
  let bits := msg.length * 8
  msg ++ [0x80] ++ List.replicate ((119 - msg.length % 64) % 64) 0 ++
    (List.range 8).map (fun i => bits / 256 ^ (7 - i) % 256)

/-- A big-endian word from its bytes. -/
def beWord (bs : List Nat) : Nat :=
  bs.foldl (fun acc b => acc * 256 + b) 0

/-- The message schedule of one 64-byte block: 16 words read from the block and
48 derived ones. -/
def sha256Schedule (block : List Nat) : List Nat :=
  let w16 := (List.range 16).map (fun i => beWord ((block.drop (4 * i)).take 4))
  (List.range 48).foldl
    (fun (w : List Nat) (j : Nat) =>
      let i := j + 16
      let w15 := w.getD (i - 15) 0
      let w2 := w.getD (i - 2) 0
      let s0 := rotr32 w15 7 ^^^ rotr32 w15 18 ^^^ (w15 >>> 3)
      let s1 := rotr32 w2 17 ^^^ rotr32 w2 19 ^^^ (w2 >>> 10)
      w ++ [(w.getD (i - 16) 0 + s0 + w.getD (i - 7) 0 + s1) % 2 ^ 32])
    w16

/-- One round of the compression function on the working variables `a .. h`;
`kw` is the round constant plus the schedule word. -/
def sha256Round (st : List Nat) (kw : Nat) : List Nat :=
  match st with
  | [a, b, c, d, e, f, g, h] =>
    let s1 := rotr32 e 6 ^^^ rotr32 e 11 ^^^ rotr32 e 25
    let ch := (e &&& f) ^^^ ((e ^^^ 0xffffffff) &&& g)
    let t1 := (h + s1 + ch + kw) % 2 ^ 32
    let s0 := rotr32 a 2 ^^^ rotr32 a 13 ^^^ rotr32 a 22
    let maj := (a &&& b) ^^^ (a &&& c) ^^^ (b &&& c)
    let t2 := (s0 + maj) % 2 ^ 32
    [(t1 + t2) % 2 ^ 32, a, b, c, (d + t1) % 2 ^ 32, e, f, g]
  | _ => st

/-- The compression of one block into the hash state. -/
def sha256Block (st : List Nat) (block : List Nat) : List Nat :=
  let w := sha256Schedule block
  let out := (List.zipWith (fun k x => (k + x) % 2 ^ 32) sha256K w).foldl sha256Round st
  List.zipWith (fun x y => (x + y) % 2 ^ 32) st out

/-- The digest computed by `sha256.New()`, `Write(msg)`, `Sum(nil)`: 32 bytes. -/
def sha256Sum (msg : List Nat) : List Nat :=
  let padded := sha256Pad msg
  let st := (List.range (padded.length / 64)).foldl
    (fun (st : List Nat) (i : Nat) => sha256Block st ((padded.drop (64 * i)).take 64))
    sha256Init
  st.flatMap (fun w => [w / 16777216 % 256, w / 65536 % 256, w / 256 % 256, w % 256])

/-- The alphabet of the standard base64 encoding. -/
def base64Alphabet : List Char :=
  "ABCDEFGHIJKLMNOPQRSTUVWXYZabcdefghijklmnopqrstuvwxyz0123456789+/".data

/-- The character of a 6-bit value. -/
def base64Char (v : Nat) : Char :=
  base64Alphabet.getD v '='

/-- The characters of `base64.StdEncoding.EncodeToString`: 3 bytes give 4
characters, and a last group of 1 or 2 bytes is padded with `=`. -/
def base64Encode : List Nat → List Char
  | a :: b :: c :: rest =>
    base64Char (a / 4) :: base64Char (a % 4 * 16 + b / 16) ::
      base64Char (b % 16 * 4 + c / 64) :: base64Char (c % 64) :: base64Encode rest
  | [a, b] =>
    [base64Char (a / 4), base64Char (a % 4 * 16 + b / 16), base64Char (b % 16 * 4), '=']
  | [a] => [base64Char (a / 4), base64Char (a % 4 * 16), '=', '=']
  | [] => []

/-- The lower-case hexadecimal rendering of bytes, used to state test vectors. -/
def hexString (bs : List Nat) : String :=
  String.mk (bs.flatMap (fun b => [Nat.digitChar (b / 16), Nat.digitChar (b % 16)]))

/-! ## strings.Split and strconv.Atoi -/

/-- The digit loop of `strconv.Atoi`: every character must be a decimal digit. -/
def parseDigits : List Char → Nat → Option Nat
  | [], acc => some acc
  | c :: cs, acc =>
    if c.isDigit then parseDigits cs (acc * 10 + (c.toNat - '0'.toNat)) else none

/-- The call `strconv.Atoi(s)` on unbounded integers: an optional sign followed by
at least one decimal digit; `none` stands for the syntax error. -/
def Atoi (s : String) : Option Int :=
  match s.data with
  | [] => none
  | c :: ds =>
    if c = '-' then
      if ds = [] then none else Option.map (fun (n : Nat) => -Int.ofNat n) (parseDigits ds 0)
    else if c = '+' then
      if ds = [] then none else Option.map Int.ofNat (parseDigits ds 0)
    else Option.map Int.ofNat (parseDigits (c :: ds) 0)

/-! ## hasher.go -/

/-- The struct `MatrixHasher`. -/
structure MatrixHasher where
  matrix : TorusMatrix
deriving DecidableEq

/-- `NewMatrixHasher(matrix)`. -/
def NewMatrixHasher (matrix : TorusMatrix) : MatrixHasher :=
  { matrix := matrix }

/-- The assignment `extended[extRow][extCol] = value` on a slice of slices.  An
index outside the matrix (a run-time panic in Go) leaves the matrix unchanged;
the loops of `GenerateWrappedMatrix` never produce one. -/
def setCell (extended : List (List Int)) (extRow extCol : Nat) (value : Int) :
    List (List Int) :=
  match extended[extRow]? with
  | some row => extended.set extRow (row.set extCol value)
  | none => extended

/-- `(*MatrixHasher).GenerateWrappedMatrix` over exact integers: the matrix is
allocated with zeros (`make`) and then filled by the two nested counting loops, each
a left fold over the counter values `0, 1, ..., n-1`. -/
def MatrixHasher.GenerateWrappedMatrix (mh : MatrixHasher) : List (List Int) :=
  let (width, height) := mh.matrix.Dimensions
  let extendedHeight := height + 2
  let extendedWidth := width + 2
  let extended : List (List Int) :=
    List.replicate extendedHeight.toNat (List.replicate extendedWidth.toNat 0)
  (List.range extendedHeight.toNat).foldl
    (fun (extended : List (List Int)) (extRow : Nat) =>
      (List.range extendedWidth.toNat).foldl
        (fun (extended : List (List Int)) (extCol : Nat) =>
          let originalRow := (extRow : Int) - 1
          let originalCol := (extCol : Int) - 1
          let wrappedIndex := mh.matrix.CoordinatesToIndex originalRow originalCol
          setCell extended extRow extCol wrappedIndex)
        extended)
    extended

/-- `(*MatrixHasher).GenerateMatrixString`: `strings.Join(xs, sep)` is
`String.intercalate sep xs`; both `range` loops append to a slice. -/
def MatrixHasher.GenerateMatrixString (mh : MatrixHasher) : String :=
  let wrapped := mh.GenerateWrappedMatrix
  let rows : List String :=
    wrapped.foldl
      (fun rows row =>
        let elements : List String :=
          row.foldl (fun elements element => elements ++ [Itoa element]) []
        rows ++ [String.intercalate "," elements])
      []
  String.intercalate "\n" rows

/-- `(*MatrixHasher).CalculateHash`. -/
def MatrixHasher.CalculateHash (mh : MatrixHasher) : String :=
  let matrixString := mh.GenerateMatrixString
  let hashBytes := sha256Sum (stringBytes matrixString)
  String.mk (base64Encode hashBytes)

/-- The struct `ChallengeResult` of `solver.go`. -/
structure ChallengeResult where
  NeighborsString : String
  MatrixHash : String
deriving DecidableEq

/-- The errors built with `fmt.Errorf` in `ComputeSolution`, kept with their
payload; the two wrapping ones carry the wrapped `domain` error. -/
inductive SolverError where
  | createMatrixFailed (inner : Error)
  | invalidTargetIndex (targetIndex width height : Int)
  | findNeighborsFailed (inner : Error)
deriving DecidableEq

/-- The message text of each error of `ComputeSolution`. -/
def SolverError.message : SolverError → String
  | .createMatrixFailed inner => "failed to create torus matrix: " ++ inner.message
  | .invalidTargetIndex i w h =>
      "target index " ++ Itoa i ++ " is invalid for " ++ Itoa w ++ "x" ++ Itoa h ++ " matrix"
  | .findNeighborsFailed inner => "failed to find neighbors: " ++ inner.message

/-- `(*TorusChallengeSolver).ComputeSolution` over exact integers; the receiver is
not read.  The slice `neighborsStrings` is allocated with empty strings and filled
by the `range` loop over `neighbors`. -/
def ComputeSolution (width height targetIndex : Int) :
    Except SolverError ChallengeResult :=
  match NewTorusMatrix width height with
  | .error err => .error (.createMatrixFailed err)
  | .ok matrix =>
    if !matrix.IsValidIndex targetIndex then
      .error (.invalidTargetIndex targetIndex width height)
    else
      let neighborFinder := NewNeighborFinder matrix
      match neighborFinder.FindNeighbors targetIndex with
      | .error err => .error (.findNeighborsFailed err)
      | .ok neighbors =>
        let neighborsStrings : List String :=
          neighbors.enum.foldl
            (fun (neighborsStrings : List String) (entry : Nat × Int) =>
              neighborsStrings.set entry.1 (Itoa entry.2))
            (List.replicate neighbors.length "")
        let neighborsString := String.intercalate "," neighborsStrings
        let hasher := NewMatrixHasher matrix
        let matrixHash := hasher.CalculateHash
        .ok { NeighborsString := neighborsString, MatrixHash := matrixHash }

/-! ## Go's `int` as a signed 64-bit machine integer

The definitions above compute over unbounded integers.  The ones below apply
two's-complement wrap-around after every arithmetic operation, as Go does on a
64-bit platform; their arguments are meant to be values of the signed 64-bit
range.  A function that can panic returns an `Option`, with `none` for the panic:
as in the Go specification, `make` panics on a negative length. -/

/-- The signed 64-bit range. -/
def InInt64 (x : Int) : Prop :=
  -(2 ^ 63) ≤ x ∧ x < 2 ^ 63

/-- Two's-complement wrap-around of an exact result into the signed 64-bit range. -/
def wrap64 (x : Int) : Int :=
  (x + 2 ^ 63) % 2 ^ 64 - 2 ^ 63

/-- Go's `+` on `int`. -/
def add64 (a b : Int) : Int :=
  wrap64 (a + b)

/-- Go's `*` on `int`. -/
def mul64 (a b : Int) : Int :=
  wrap64 (a * b)

/-- Go's `/` on `int`, truncating toward zero. -/
def div64 (a b : Int) : Int :=
  wrap64 (a.tdiv b)

/-- Go's `%` on `int`, the remainder of the truncating division. -/
def rem64 (a b : Int) : Int :=
  wrap64 (a.tmod b)

/-- `(*TorusMatrix).TotalElements` on machine integers. -/
def TorusMatrix.TotalElements64 (tm : TorusMatrix) : Int :=
  mul64 tm.width tm.height

/-- `(*TorusMatrix).IndexToCoordinates` on machine integers. -/
def TorusMatrix.IndexToCoordinates64 (tm : TorusMatrix) (index : Int) :
    Except Error (Int × Int) :=
  if index < 0 ∨ index ≥ tm.TotalElements64 then
    .error (.indexOutOfBounds index tm.width tm.height)
  else
    let row := div64 index tm.width
    let col := rem64 index tm.width
    .ok (row, col)

/-- `(*TorusMatrix).CoordinatesToIndex` on machine integers. -/
def TorusMatrix.CoordinatesToIndex64 (tm : TorusMatrix) (row col : Int) : Int :=
  let wrappedRow := rem64 (add64 (rem64 row tm.height) tm.height) tm.height
  let wrappedCol := rem64 (add64 (rem64 col tm.width) tm.width) tm.width
  add64 (mul64 wrappedRow tm.width) wrappedCol

/-- `(*TorusMatrix).IsValidIndex` on machine integers. -/
def TorusMatrix.IsValidIndex64 (tm : TorusMatrix) (index : Int) : Bool :=
  decide (index ≥ 0) && decide (index < tm.TotalElements64)

/-- `(*NeighborFinder).FindNeighbors` on machine integers. -/
def NeighborFinder.FindNeighbors64 (nf : NeighborFinder) (index : Int) :
    Except Error (List Int) :=
  if !nf.matrix.IsValidIndex64 index then
    .error (.invalidIndex index nf.matrix.width nf.matrix.height)
  else
    match nf.matrix.IndexToCoordinates64 index with
    | .error err => .error (.convertFailed err)
    | .ok (centerRow, centerCol) =>
      .ok (AllDirections.foldl
        (fun neighbors direction =>
          let neighborRow := add64 centerRow direction.RowOffset
          let neighborCol := add64 centerCol direction.ColOffset
          let neighborIndex := nf.matrix.CoordinatesToIndex64 neighborRow neighborCol
          neighbors ++ [neighborIndex])
        [])

/-- Go's `-` on `int`. -/
def sub64 (a b : Int) : Int :=
  wrap64 (a - b)

/-- `(*MatrixHasher).GenerateWrappedMatrix` on machine integers.  `none` stands
for the run-time panic of `make` on a negative length (`make([][]int, n)` for the
rows, `make([]int, n)` for the first row); limits of memory are not modelled.  The
loop counters run from 0 to below the slice length. -/
def MatrixHasher.GenerateWrappedMatrix64 (mh : MatrixHasher) :
    Option (List (List Int)) :=
  let (width, height) := mh.matrix.Dimensions
  let extendedHeight := add64 height 2
  let extendedWidth := add64 width 2
  if extendedHeight < 0 ∨ (0 < extendedHeight ∧ extendedWidth < 0) then
    none
  else
    let extended : List (List Int) :=
      List.replicate extendedHeight.toNat (List.replicate extendedWidth.toNat 0)
    some ((List.range extendedHeight.toNat).foldl
      (fun (extended : List (List Int)) (extRow : Nat) =>
        (List.range extendedWidth.toNat).foldl
          (fun (extended : List (List Int)) (extCol : Nat) =>
            let originalRow := sub64 (extRow : Int) 1
            let originalCol := sub64 (extCol : Int) 1
            let wrappedIndex := mh.matrix.CoordinatesToIndex64 originalRow originalCol
            setCell extended extRow extCol wrappedIndex)
          extended)
      extended)

/-- `(*MatrixHasher).GenerateMatrixString` on machine integers; `none` when
`GenerateWrappedMatrix` panics. -/
def MatrixHasher.GenerateMatrixString64 (mh : MatrixHasher) : Option String :=
  match mh.GenerateWrappedMatrix64 with
  | none => none
  | some wrapped =>
    let rows : List String :=
      wrapped.foldl
        (fun rows row =>
          let elements : List String :=
            row.foldl (fun elements element => elements ++ [Itoa element]) []
          rows ++ [String.intercalate "," elements])
        []
    some (String.intercalate "\n" rows)

/-- `(*MatrixHasher).CalculateHash` on machine integers; `none` when
`GenerateWrappedMatrix` panics. -/
def MatrixHasher.CalculateHash64 (mh : MatrixHasher) : Option String :=
  match mh.GenerateMatrixString64 with
  | none => none
  | some matrixString =>
    let hashBytes := sha256Sum (stringBytes matrixString)
    some (String.mk (base64Encode hashBytes))

/-- `(*TorusChallengeSolver).ComputeSolution` on machine integers; `none` when
`CalculateHash` panics. -/
def ComputeSolution64 (width height targetIndex : Int) :
    Option (Except SolverError ChallengeResult) :=
  match NewTorusMatrix width height with
  | .error err => some (.error (.createMatrixFailed err))
  | .ok matrix =>
    if !matrix.IsValidIndex64 targetIndex then
      some (.error (.invalidTargetIndex targetIndex width height))
    else
      let neighborFinder := NewNeighborFinder matrix
      match neighborFinder.FindNeighbors64 targetIndex with
      | .error err => some (.error (.findNeighborsFailed err))
      | .ok neighbors =>
        let neighborsStrings : List String :=
          neighbors.enum.foldl
            (fun (neighborsStrings : List String) (entry : Nat × Int) =>
              neighborsStrings.set entry.1 (Itoa entry.2))
            (List.replicate neighbors.length "")
        let neighborsString := String.intercalate "," neighborsStrings
        let hasher := NewMatrixHasher matrix
        match hasher.CalculateHash64 with
        | none => none
        | some matrixHash =>
          some (.ok { NeighborsString := neighborsString, MatrixHash := matrixHash })

/-- The call `strconv.Atoi(s)` on machine integers: a value outside the signed
64-bit range is an error, as is a syntax error. -/
def Atoi64 (s : String) : Option Int :=
  match Atoi s with
  | none => none
  | some n => if -(2 ^ 63) ≤ n ∧ n < 2 ^ 63 then some n else none

/-! ## Predicates used in the statements -/

/-- The double-remainder idiom `((x % n) + n) % n` over the truncating remainder
is the non-negative remainder, for a positive modulus. -/
theorem wrap_eq_emod (x n : Int) (hn : 0 < n) :
    ((x.tmod n) + n).tmod n = x % n := by
  have hlt : x.tmod n < n := Int.tmod_lt_of_pos x hn
  have hgt : -n < x.tmod n := by
    rcases Int.le_total 0 x with hx | hx
    · have := Int.tmod_nonneg n hx
      omega
    · have h1 : (-x).tmod n < n := Int.tmod_lt_of_pos (-x) hn
      have h2 : (-x).tmod n = -(x.tmod n) := by
        rw [Int.tmod_def, Int.tmod_def, Int.neg_tdiv, Int.mul_neg]
        omega
      have h3 : 0 ≤ (-x).tmod n := Int.tmod_nonneg n (by omega)
      omega
  have hnn : 0 ≤ x.tmod n + n := by omega
  rw [Int.tmod_eq_emod hnn (Int.le_of_lt hn), Int.add_emod_self]
  have hdef : x.tmod n = x - n * x.tdiv n := Int.tmod_def x n
  rw [hdef, Int.sub_eq_add_neg, ← Int.mul_neg, Int.add_mul_emod_self_left]

/-- On a grid of positive dimensions `CoordinatesToIndex` is row-major over the
non-negative remainders. -/
theorem coordinatesToIndex_eq (tm : TorusMatrix) (hW : 0 < tm.width)
    (hH : 0 < tm.height) (row col : Int) :
    tm.CoordinatesToIndex row col = (row % tm.height) * tm.width + col % tm.width := by
  simp only [TorusMatrix.CoordinatesToIndex, wrap_eq_emod _ _ hW, wrap_eq_emod _ _ hH]

/-- The index produced by wrapping lies in `[0, W*H)`. -/
theorem coordinatesToIndex_range (tm : TorusMatrix) (hW : 0 < tm.width)
    (hH : 0 < tm.height) (row col : Int) :
    0 ≤ tm.CoordinatesToIndex row col ∧
      tm.CoordinatesToIndex row col < tm.width * tm.height := by
  rw [coordinatesToIndex_eq tm hW hH]
  have h1 : 0 ≤ row % tm.height := Int.emod_nonneg _ (by omega)
  have h2 : row % tm.height < tm.height := Int.emod_lt_of_pos _ hH
  have h3 : 0 ≤ col % tm.width := Int.emod_nonneg _ (by omega)
  have h4 : col % tm.width < tm.width := Int.emod_lt_of_pos _ hW
  constructor
  · positivity
  · nlinarith

/-- For a valid index the row `i / W` and column `i % W` lie inside the grid. -/
theorem index_row_col_range (tm : TorusMatrix) (hW : 0 < tm.width)
    (i : Int) (h0 : 0 ≤ i) (h1 : i < tm.width * tm.height) :
    i.tdiv tm.width = i / tm.width ∧ i.tmod tm.width = i % tm.width ∧
      0 ≤ i / tm.width ∧ i / tm.width < tm.height ∧
      0 ≤ i % tm.width ∧ i % tm.width < tm.width := by
  refine ⟨Int.tdiv_eq_ediv h0 (Int.le_of_lt hW), Int.tmod_eq_emod h0 (Int.le_of_lt hW),
    Int.ediv_nonneg h0 (Int.le_of_lt hW), ?_, Int.emod_nonneg _ (by omega),
    Int.emod_lt_of_pos _ hW⟩
  exact Int.ediv_lt_of_lt_mul hW (by rw [Int.mul_comm]; exact h1)

/-- `IsValidIndex` decides membership in `[0, W*H)`. -/
theorem isValidIndex_iff (tm : TorusMatrix) (i : Int) :
    tm.IsValidIndex i = true ↔ 0 ≤ i ∧ i < tm.width * tm.height := by
  simp [TorusMatrix.IsValidIndex, TorusMatrix.TotalElements]

/-- `IndexToCoordinates` succeeds on a valid index, with the truncating quotient
and remainder. -/
theorem indexToCoordinates_ok (tm : TorusMatrix) (i : Int) (h0 : 0 ≤ i)
    (h1 : i < tm.width * tm.height) :
    tm.IndexToCoordinates i = .ok (i.tdiv tm.width, i.tmod tm.width) := by
  have h : ¬ (i < 0 ∨ i ≥ tm.width * tm.height) := by omega
  simp only [TorusMatrix.IndexToCoordinates, TorusMatrix.TotalElements, if_neg h]

/-- The loop of `FindNeighbors` yields one wrapped index per direction, in the
order of `AllDirections`. -/
theorem findNeighbors_ok (tm : TorusMatrix) (i : Int) (h0 : 0 ≤ i)
    (h1 : i < tm.width * tm.height) :
    (NewNeighborFinder tm).FindNeighbors i =
      .ok [tm.CoordinatesToIndex (i.tdiv tm.width + -1) (i.tmod tm.width + -1),
           tm.CoordinatesToIndex (i.tdiv tm.width + -1) (i.tmod tm.width + 0),
           tm.CoordinatesToIndex (i.tdiv tm.width + -1) (i.tmod tm.width + 1),
           tm.CoordinatesToIndex (i.tdiv tm.width + 0) (i.tmod tm.width + -1),
           tm.CoordinatesToIndex (i.tdiv tm.width + 0) (i.tmod tm.width + 1),
           tm.CoordinatesToIndex (i.tdiv tm.width + 1) (i.tmod tm.width + -1),
           tm.CoordinatesToIndex (i.tdiv tm.width + 1) (i.tmod tm.width + 0),
           tm.CoordinatesToIndex (i.tdiv tm.width + 1) (i.tmod tm.width + 1)] := by
  have hv : tm.IsValidIndex i = true := (isValidIndex_iff tm i).2 ⟨h0, h1⟩
  simp only [NeighborFinder.FindNeighbors, NewNeighborFinder, hv,
    indexToCoordinates_ok tm i h0 h1, AllDirections, List.foldl, List.nil_append,
    List.cons_append, Bool.not_true, Bool.false_eq_true, if_false]

/-! ## Loops that fill a slice -/

/-- Writing at the position right after a prefix replaces the element there. -/
theorem set_middle {β : Type} (A B : List β) (x y : β) (i : Nat) (hi : A.length = i) :
    (A ++ x :: B).set i y = A ++ y :: B := by
  subst hi
  simp

/-- Moving a whole grid height down does not change the wrapped index. -/
theorem coordinatesToIndex_add_height (tm : TorusMatrix) (hW : 0 < tm.width)
    (hH : 0 < tm.height) (row col : Int) :
    tm.CoordinatesToIndex (row + tm.height) col = tm.CoordinatesToIndex row col := by
  rw [coordinatesToIndex_eq tm hW hH, coordinatesToIndex_eq tm hW hH, Int.add_emod_self]

/-- Moving a whole grid width right does not change the wrapped index. -/
theorem coordinatesToIndex_add_width (tm : TorusMatrix) (hW : 0 < tm.width)
    (hH : 0 < tm.height) (row col : Int) :
    tm.CoordinatesToIndex row (col + tm.width) = tm.CoordinatesToIndex row col := by
  rw [coordinatesToIndex_eq tm hW hH, coordinatesToIndex_eq tm hW hH, Int.add_emod_self]

/-- Inside the grid `CoordinatesToIndex` is the row-major index, without wrapping. -/
theorem coordinatesToIndex_inside (tm : TorusMatrix) (hW : 0 < tm.width)
    (hH : 0 < tm.height) (row col : Int) (hr0 : 0 ≤ row) (hr1 : row < tm.height)
    (hc0 : 0 ≤ col) (hc1 : col < tm.width) :
    tm.CoordinatesToIndex row col = row * tm.width + col := by
  rw [coordinatesToIndex_eq tm hW hH, Int.emod_eq_of_lt hr0 hr1, Int.emod_eq_of_lt hc0 hc1]

/-! ## Decimal rendering -/

/-- A decimal digit value is rendered as a digit character. -/
theorem digitChar_isDigit (d : Nat) (hd : d < 10) : (Nat.digitChar d).isDigit = true := by
  interval_cases d <;> decide

/-- The digit loop of `Nat.repr` produces the base-10 digits, most significant
first, in front of the accumulator. -/
theorem toDigitsCore_eq (fuel : Nat) : ∀ (n : Nat) (acc : List Char), 0 < n → n < fuel →
    Nat.toDigitsCore 10 fuel n acc = (Nat.digits 10 n).reverse.map Nat.digitChar ++ acc := by
  induction fuel with
  | zero => intro n acc _ h; omega
  | succ fuel ih =>
    intro n acc hn hlt
    have hd : Nat.digits 10 n = (n % 10) :: Nat.digits 10 (n / 10) :=
      Nat.digits_def' (by decide) hn
    rw [Nat.toDigitsCore, hd]
    by_cases h0 : n / 10 = 0
    · simp [h0]
    · simp only [h0, if_false]
      rw [ih (n / 10) _ (Nat.pos_of_ne_zero h0) (by omega)]
      simp

/-- The characters of `Itoa e` for a positive `e`: its base-10 digits. -/
theorem itoa_data_pos (e : Int) (he : 0 < e) :
    (Itoa e).data = (Nat.digits 10 e.toNat).reverse.map Nat.digitChar := by
  obtain ⟨n, rfl⟩ := Int.eq_ofNat_of_zero_le (Int.le_of_lt he)
  have hn : 0 < n := by omega
  show (Nat.repr n).data = _
  simp only [Nat.repr, Nat.toDigits, List.asString, Int.toNat_ofNat]
  rw [toDigitsCore_eq (n + 1) n [] hn (by omega), List.append_nil]

/-- The characters of `Itoa 0`. -/
theorem itoa_data_zero : (Itoa 0).data = ['0'] := by decide

/-- The rendering of a non-negative number is a non-empty run of digits. -/
theorem itoa_digits (e : Int) (he : 0 ≤ e) :
    (Itoa e).data ≠ [] ∧ ∀ ch ∈ (Itoa e).data, ch.isDigit = true := by
  rcases lt_or_eq_of_le he with hpos | rfl
  · rw [itoa_data_pos e hpos]
    constructor
    · have hne : Nat.digits 10 e.toNat ≠ [] := by
        rw [Nat.digits_ne_nil_iff_ne_zero]
        omega
      simpa using hne
    · intro ch hch
      simp only [List.mem_map, List.mem_reverse] at hch
      obtain ⟨d, hd, rfl⟩ := hch
      exact digitChar_isDigit d (Nat.digits_lt_base (by decide) hd)
  · rw [itoa_data_zero]
    simp

/-- A digit value below ten is read back from its character. -/
theorem digitChar_value (d : Nat) (hd : d < 10) :
    (Nat.digitChar d).toNat - '0'.toNat = d := by
  interval_cases d <;> decide

/-- The digit loop reads a run of digit characters as the base-10 number. -/
theorem parseDigits_digitChars (L : List Nat) :
    ∀ acc : Nat, (∀ d ∈ L, d < 10) →
      parseDigits (L.map Nat.digitChar) acc =
        some (L.foldl (fun a d => a * 10 + d) acc) := by
  induction L with
  | nil => intro acc _; rfl
  | cons d L ih =>
    intro acc h
    have hd : d < 10 := h d (List.mem_cons_self d L)
    rw [List.map_cons, parseDigits, if_pos (digitChar_isDigit d hd), digitChar_value d hd,
      ih _ (fun e he => h e (List.mem_cons_of_mem d he))]
    rfl

/-- Reading the base-10 digits of a number, most significant first, gives the
number. -/
theorem foldl_digits_reverse (n : Nat) :
    (Nat.digits 10 n).reverse.foldl (fun a d => a * 10 + d) 0 = n := by
  have h : ∀ ds : List Nat,
      ds.reverse.foldl (fun a d => a * 10 + d) 0 = Nat.ofDigits 10 ds := by
    intro ds
    induction ds with
    | nil => rfl
    | cons d ds ih =>
      rw [List.reverse_cons, List.foldl_append, ih, Nat.ofDigits_cons]
      simp only [List.foldl_cons, List.foldl_nil]
      omega
  rw [h, Nat.ofDigits_digits]

/-- The digit loop accepts the rendering of a non-negative number and reads the
number back. -/
theorem parseDigits_itoa (e : Int) (he : 0 ≤ e) :
    parseDigits (Itoa e).data 0 = some e.toNat := by
  rcases lt_or_eq_of_le he with hpos | rfl
  · rw [itoa_data_pos e hpos, parseDigits_digitChars _ 0
      (fun d hd => Nat.digits_lt_base (by decide) (List.mem_reverse.1 hd)),
      foldl_digits_reverse]
  · rfl

/-- Parsing the rendering of a non-negative number gives the number back. -/
theorem atoi_itoa (e : Int) (he : 0 ≤ e) : Atoi (Itoa e) = some e := by
  obtain ⟨hne, hdig⟩ := itoa_digits e he
  have hp := parseDigits_itoa e he
  unfold Atoi
  cases hdata : (Itoa e).data with
  | nil => exact absurd hdata hne
  | cons c ds =>
    have hc : c.isDigit = true := hdig c (by rw [hdata]; exact List.mem_cons_self c ds)
    have h1 : c ≠ '-' := by rintro rfl; exact absurd hc (by decide)
    have h2 : c ≠ '+' := by rintro rfl; exact absurd hc (by decide)
    rw [hdata] at hp
    simp only [if_neg h1, if_neg h2, hp, Option.map_some', Int.ofNat_eq_coe,
      Int.toNat_of_nonneg he]

/-! ## The SHA-256 constants -/

set_option maxRecDepth 100000 in
/-- The tables of constants are the ones FIPS 180-4 defines: the fractional parts
of the cube roots of the first 64 primes and of the square roots of the first 8
primes, cut to 32 bits. -/
theorem sha256_constants_spec :
    sha256K = sha256Primes.map (fun p => floorRoot 3 (p * 2 ^ 96) 35 % 2 ^ 32) ∧
      sha256Init =
        (sha256Primes.take 8).map (fun p => floorRoot 2 (p * 2 ^ 64) 35 % 2 ^ 32) := by
  decide

/-! ## The solver pipeline -/

/-- Construction succeeds on positive dimensions. -/
theorem newTorusMatrix_ok (width height : Int) (hw : 0 < width) (hh : 0 < height) :
    NewTorusMatrix width height = .ok ⟨width, height⟩ := by
  have h : ¬ (width ≤ 0 ∨ height ≤ 0) := by omega
  simp only [NewTorusMatrix, if_neg h]

/-- Construction fails when a dimension is not positive. -/
theorem newTorusMatrix_error (width height : Int) (hbad : width ≤ 0 ∨ height ≤ 0) :
    NewTorusMatrix width height = .error (.invalidDimensions width height) := by
  simp only [NewTorusMatrix, if_pos hbad]

/-- The loop filling `neighborsStrings` writes the rendering of every neighbour
at its own position. -/
theorem fill_neighborsStrings (l : List Int) :
    ∀ A : List String,
      (l.enumFrom A.length).foldl
          (fun (neighborsStrings : List String) (entry : Nat × Int) =>
            neighborsStrings.set entry.1 (Itoa entry.2))
          (A ++ List.replicate l.length "") = A ++ l.map Itoa := by
  induction l with
  | nil => intro A; simp
  | cons x l ih =>
    intro A
    have h := ih (A ++ [Itoa x])
    rw [List.length_append, List.length_singleton] at h
    rw [List.enumFrom_cons, List.foldl_cons, List.length_cons, List.replicate_succ,
      set_middle A _ "" (Itoa x) A.length rfl, List.map_cons]
    simpa [List.append_assoc] using h

/-- On positive dimensions and a valid target index `ComputeSolution` returns the
comma-join of the rendered neighbours and the hash of the grid. -/
theorem computeSolution_ok (width height targetIndex : Int) (hw : 0 < width)
    (hh : 0 < height) (h0 : 0 ≤ targetIndex) (h1 : targetIndex < width * height)
    (neighbors : List Int)
    (hn : (NewNeighborFinder ⟨width, height⟩).FindNeighbors targetIndex = .ok neighbors) :
    ComputeSolution width height targetIndex =
      .ok { NeighborsString := String.intercalate "," (neighbors.map Itoa),
            MatrixHash := (NewMatrixHasher ⟨width, height⟩).CalculateHash } := by
  have hv : (TorusMatrix.mk width height).IsValidIndex targetIndex = true :=
    (isValidIndex_iff _ _).2 ⟨h0, h1⟩
  have hfill := fill_neighborsStrings neighbors []
  simp only [List.length_nil, List.nil_append] at hfill
  simp only [ComputeSolution, newTorusMatrix_ok width height hw hh, hv, hn, List.enum,
    hfill, Bool.not_true, Bool.false_eq_true, if_false]

/-- A non-positive dimension makes `ComputeSolution` fail with the wrapped
invalid-dimensions error, whatever the target index. -/
theorem computeSolution_bad_dimensions (width height targetIndex : Int)
    (hbad : width ≤ 0 ∨ height ≤ 0) :
    ComputeSolution width height targetIndex =
      .error (.createMatrixFailed (.invalidDimensions width height)) := by
  simp only [ComputeSolution, newTorusMatrix_error width height hbad]

/-- On positive dimensions an index outside `[0, W*H)` makes `ComputeSolution`
fail with its invalid-target-index error. -/
theorem computeSolution_bad_index (width height targetIndex : Int) (hw : 0 < width)
    (hh : 0 < height) (hbad : targetIndex < 0 ∨ targetIndex ≥ width * height) :
    ComputeSolution width height targetIndex =
      .error (.invalidTargetIndex targetIndex width height) := by
  have hv : (TorusMatrix.mk width height).IsValidIndex targetIndex = false := by
    rw [← Bool.not_eq_true, isValidIndex_iff]
    show ¬ (0 ≤ targetIndex ∧ targetIndex < width * height)
    omega
  simp only [ComputeSolution, newTorusMatrix_ok width height hw hh, hv, Bool.not_false,
    if_true]

set_option maxRecDepth 100000 in
/-- The hash of the 4x4 grid, by evaluation of the SHA-256 and base64 models. -/
theorem calculateHash_4x4 :
    (NewMatrixHasher ⟨4, 4⟩).CalculateHash =
      "hJVz5fi5z2YecMNLsihGJQHBpAGUAYitNUOFGmjBg38=" := by
  decide

/-- A row-major index `a*W + b` with `0 ≤ b < W` decodes to `a` and `b`. -/
theorem rowMajor_decode (W a b : Int) (hb0 : 0 ≤ b) (hb1 : b < W) :
    (a * W + b) / W = a ∧ (a * W + b) % W = b := by
  have hW : W ≠ 0 := by omega
  constructor
  · rw [Int.add_comm, Int.add_mul_ediv_right b a hW, Int.ediv_eq_zero_of_lt hb0 hb1,
      Int.zero_add]
  · rw [Int.add_comm, Int.add_mul_emod_self, Int.emod_eq_of_lt hb0 hb1]

/-- Two row-major indices with columns in `[0, W)` are equal only for equal rows
and equal columns. -/
theorem rowMajor_inj (W a1 b1 a2 b2 : Int) (h10 : 0 ≤ b1) (h11 : b1 < W) (h20 : 0 ≤ b2)
    (h21 : b2 < W) (h : a1 * W + b1 = a2 * W + b2) : a1 = a2 ∧ b1 = b2 := by
  obtain ⟨hd1, hm1⟩ := rowMajor_decode W a1 b1 h10 h11
  obtain ⟨hd2, hm2⟩ := rowMajor_decode W a2 b2 h20 h21
  rw [h] at hd1 hm1
  exact ⟨hd1.symm.trans hd2, hm1.symm.trans hm2⟩

/-- Converting a wrapped index back gives the wrapped coordinates. -/
theorem indexToCoordinates_coordinatesToIndex (tm : TorusMatrix) (hW : 0 < tm.width)
    (hH : 0 < tm.height) (row col : Int) :
    tm.IndexToCoordinates (tm.CoordinatesToIndex row col) =
      .ok (row % tm.height, col % tm.width) := by
  obtain ⟨h0, h1⟩ := coordinatesToIndex_range tm hW hH row col
  rw [indexToCoordinates_ok tm _ h0 h1, Int.tdiv_eq_ediv h0 (Int.le_of_lt hW),
    Int.tmod_eq_emod h0 (Int.le_of_lt hW), coordinatesToIndex_eq tm hW hH]
  obtain ⟨hd, hm⟩ := rowMajor_decode tm.width (row % tm.height) (col % tm.width)
    (Int.emod_nonneg _ (by omega)) (Int.emod_lt_of_pos _ hW)
  rw [hd, hm]

/-- The successor of a coordinate in `[0, n)`, wrapped. -/
theorem emod_succ_cases (r n : Int) (h0 : 0 ≤ r) (h1 : r < n) :
    (r + 1) % n = if r + 1 = n then 0 else r + 1 := by
  by_cases h : r + 1 = n
  · rw [if_pos h, h, Int.emod_self]
  · rw [if_neg h, Int.emod_eq_of_lt (by omega) (by omega)]

/-- The predecessor of a coordinate in `[0, n)`, wrapped. -/
theorem emod_pred_cases (r n : Int) (h0 : 0 ≤ r) (h1 : r < n) :
    (r + -1) % n = if r = 0 then n - 1 else r - 1 := by
  by_cases h : r = 0
  · rw [if_pos h, h, ← Int.add_emod_self, Int.emod_eq_of_lt (by omega) (by omega)]
    omega
  · rw [if_neg h, Int.emod_eq_of_lt (by omega) (by omega)]
    omega

/-- A coordinate in `[0, n)` is its own remainder. -/
theorem emod_zero_cases (r n : Int) (h0 : 0 ≤ r) (h1 : r < n) : (r + 0) % n = r := by
  rw [Int.add_zero, Int.emod_eq_of_lt h0 h1]

/-- The nine cells of a 3x3 block with pairwise distinct rows and pairwise
distinct columns have pairwise distinct row-major indices. -/
theorem block_nodup (W rm r0 rp cm c0 cp : Int)
    (hr : rm ≠ r0 ∧ r0 ≠ rp ∧ rm ≠ rp) (hc : cm ≠ c0 ∧ c0 ≠ cp ∧ cm ≠ cp)
    (hcm : 0 ≤ cm ∧ cm < W) (hc0 : 0 ≤ c0 ∧ c0 < W) (hcp : 0 ≤ cp ∧ cp < W) :
    ([(r0, c0), (rm, cm), (rm, c0), (rm, cp), (r0, cm), (r0, cp), (rp, cm), (rp, c0),
      (rp, cp)].map (fun (p : Int × Int) => p.1 * W + p.2)).Nodup := by
  apply List.Nodup.map_on
  · intro x hx y hy hxy
    have hb : ∀ z ∈ [(r0, c0), (rm, cm), (rm, c0), (rm, cp), (r0, cm), (r0, cp), (rp, cm),
        (rp, c0), (rp, cp)], 0 ≤ z.2 ∧ z.2 < W := by
      intro z hz
      simp only [List.mem_cons, List.mem_singleton, List.not_mem_nil, or_false] at hz
      rcases hz with h | h | h | h | h | h | h | h | h <;> rw [h] <;> assumption
    obtain ⟨h1, h2⟩ := rowMajor_inj W x.1 x.2 y.1 y.2 (hb x hx).1 (hb x hx).2 (hb y hy).1
      (hb y hy).2 hxy
    exact Prod.ext h1 h2
  · simp only [List.nodup_cons, List.mem_cons, List.mem_singleton, List.not_mem_nil,
      Prod.mk.injEq, or_false, List.nodup_nil, and_true, not_false_eq_true]
    omega

/-! ## Neighbours and their mirror directions -/

/-- Stepping from a valid index by an offset and then by the opposite offset
returns to the index. -/
theorem neighbor_back (tm : TorusMatrix) (hW : 0 < tm.width) (hH : 0 < tm.height)
    (i : Int) (h0 : 0 ≤ i) (h1 : i < tm.width * tm.height) (dr dc dr' dc' : Int)
    (hr : dr + dr' = 0) (hc : dc + dc' = 0) :
    tm.CoordinatesToIndex
        ((tm.CoordinatesToIndex (i.tdiv tm.width + dr) (i.tmod tm.width + dc)).tdiv
          tm.width + dr')
        ((tm.CoordinatesToIndex (i.tdiv tm.width + dr) (i.tmod tm.width + dc)).tmod
          tm.width + dc') = i := by
  obtain ⟨hd, hm, hr0, hr1, hc0, hc1⟩ := index_row_col_range tm hW i h0 h1
  obtain ⟨hj0, hj1⟩ := coordinatesToIndex_range tm hW hH (i.tdiv tm.width + dr)
    (i.tmod tm.width + dc)
  have hback := indexToCoordinates_coordinatesToIndex tm hW hH (i.tdiv tm.width + dr)
    (i.tmod tm.width + dc)
  rw [indexToCoordinates_ok tm _ hj0 hj1] at hback
  injection hback with hback
  injection hback with hrow hcol
  rw [hrow, hcol, coordinatesToIndex_eq tm hW hH, Int.emod_add_emod, Int.emod_add_emod, hd,
    hm]
  have e1 : i / tm.width + dr + dr' = i / tm.width := by omega
  have e2 : i % tm.width + dc + dc' = i % tm.width := by omega
  rw [e1, e2, Int.emod_eq_of_lt hr0 hr1, Int.emod_eq_of_lt hc0 hc1]
  exact Int.ediv_add_emod' i tm.width

/-- The `k`-th neighbour `j` of a valid index `i` is a valid index whose
`(7-k)`-th neighbour is `i`. -/
theorem findNeighbors_mirror (tm : TorusMatrix) (hW : 0 < tm.width) (hH : 0 < tm.height)
    (i : Int) (h0 : 0 ≤ i) (h1 : i < tm.width * tm.height) (neighbors : List Int)
    (hn : (NewNeighborFinder tm).FindNeighbors i = .ok neighbors) (k : Nat) (j : Int)
    (hk : neighbors[k]? = some j) :
    0 ≤ j ∧ j < tm.width * tm.height ∧
      ∃ back, (NewNeighborFinder tm).FindNeighbors j = .ok back ∧
        back[7 - k]? = some i := by
  rw [findNeighbors_ok tm i h0 h1] at hn
  cases hn
  rcases k with _ | _ | _ | _ | _ | _ | _ | _ | k
  case succ.succ.succ.succ.succ.succ.succ.succ => simp at hk
  all_goals
    simp only [zero_add, Nat.reduceAdd, List.getElem?_cons_zero, List.getElem?_cons_succ,
      Option.some.injEq] at hk
    subst hk
    refine ⟨(coordinatesToIndex_range tm hW hH _ _).1,
      (coordinatesToIndex_range tm hW hH _ _).2, _,
      findNeighbors_ok tm _ (coordinatesToIndex_range tm hW hH _ _).1
        (coordinatesToIndex_range tm hW hH _ _).2, ?_⟩
    simp only [zero_add, Nat.reduceAdd, Nat.reduceSub, List.getElem?_cons_zero,
      List.getElem?_cons_succ, Option.some.injEq]
    exact neighbor_back tm hW hH i h0 h1 _ _ _ _ (by decide) (by decide)

/-! ## Wrapped matrix cells -/

/-- A value of the signed 64-bit range is not changed by the wrap-around. -/
theorem wrap64_eq (x : Int) (hx : InInt64 x) : wrap64 x = x := by
  obtain ⟨h0, h1⟩ := hx
  unfold wrap64
  omega

/-- The truncating remainder by a positive number is smaller than it in
absolute value. -/
theorem tmod_bounds (x n : Int) (hn : 0 < n) : -n < x.tmod n ∧ x.tmod n < n := by
  refine ⟨?_, Int.tmod_lt_of_pos x hn⟩
  rcases Int.le_total 0 x with hx | hx
  · have := Int.tmod_nonneg n hx
    omega
  · have h1 : (-x).tmod n < n := Int.tmod_lt_of_pos (-x) hn
    have h2 : (-x).tmod n = -(x.tmod n) := by
      rw [Int.tmod_def, Int.tmod_def, Int.neg_tdiv, Int.mul_neg]
      omega
    omega

/-- On a grid of fewer than `2 ^ 62` cells both dimensions are below `2 ^ 62`. -/
theorem dimensions_lt (tm : TorusMatrix) (hW : 0 < tm.width) (hH : 0 < tm.height)
    (hsize : tm.width * tm.height < 2 ^ 62) : tm.width < 2 ^ 62 ∧ tm.height < 2 ^ 62 := by
  constructor <;> nlinarith

/-- The intermediate values of `CoordinatesToIndex` on a grid of fewer than
`2 ^ 62` cells. -/
theorem coordinatesToIndex_steps (tm : TorusMatrix) (hW : 0 < tm.width)
    (hH : 0 < tm.height) (hsize : tm.width * tm.height < 2 ^ 62) (row col : Int) :
    InInt64 (row.tmod tm.height) ∧ InInt64 (col.tmod tm.width) ∧
      InInt64 (row.tmod tm.height + tm.height) ∧ InInt64 (col.tmod tm.width + tm.width) ∧
      InInt64 ((row.tmod tm.height + tm.height).tmod tm.height) ∧
      InInt64 ((col.tmod tm.width + tm.width).tmod tm.width) ∧
      InInt64 ((row.tmod tm.height + tm.height).tmod tm.height * tm.width) ∧
      InInt64 ((row.tmod tm.height + tm.height).tmod tm.height * tm.width +
        (col.tmod tm.width + tm.width).tmod tm.width) := by
  obtain ⟨hWb, hHb⟩ := dimensions_lt tm hW hH hsize
  obtain ⟨hr0, hr1⟩ := tmod_bounds row tm.height hH
  obtain ⟨hc0, hc1⟩ := tmod_bounds col tm.width hW
  have hwr := wrap_eq_emod row tm.height hH
  have hwc := wrap_eq_emod col tm.width hW
  have hwr0 : 0 ≤ row % tm.height := Int.emod_nonneg _ (by omega)
  have hwr1 : row % tm.height < tm.height := Int.emod_lt_of_pos _ hH
  have hwc0 : 0 ≤ col % tm.width := Int.emod_nonneg _ (by omega)
  have hwc1 : col % tm.width < tm.width := Int.emod_lt_of_pos _ hW
  have hp0 : 0 ≤ row % tm.height * tm.width := Int.mul_nonneg hwr0 (by omega)
  have hp1 : row % tm.height * tm.width + col % tm.width < tm.width * tm.height := by
    nlinarith
  rw [hwr, hwc]
  unfold InInt64
  refine ⟨⟨?_, ?_⟩, ⟨?_, ?_⟩, ⟨?_, ?_⟩, ⟨?_, ?_⟩, ⟨?_, ?_⟩, ⟨?_, ?_⟩, ⟨?_, ?_⟩, ⟨?_, ?_⟩⟩ <;>
    omega

/-- On a grid of fewer than `2 ^ 62` cells the machine `CoordinatesToIndex`
computes the exact value. -/
theorem coordinatesToIndex64_eq (tm : TorusMatrix) (hW : 0 < tm.width)
    (hH : 0 < tm.height) (hsize : tm.width * tm.height < 2 ^ 62) (row col : Int) :
    tm.CoordinatesToIndex64 row col = tm.CoordinatesToIndex row col := by
  obtain ⟨s1, s2, s3, s4, s5, s6, s7, s8⟩ := coordinatesToIndex_steps tm hW hH hsize row col
  simp only [TorusMatrix.CoordinatesToIndex64, TorusMatrix.CoordinatesToIndex, rem64, add64,
    mul64, wrap64_eq _ s1, wrap64_eq _ s2, wrap64_eq _ s3, wrap64_eq _ s4, wrap64_eq _ s5,
    wrap64_eq _ s6, wrap64_eq _ s7, wrap64_eq _ s8]

/-- On a grid of fewer than `2 ^ 62` cells the machine cell count is exact. -/
theorem totalElements64_eq (tm : TorusMatrix) (hW : 0 < tm.width) (hH : 0 < tm.height)
    (hsize : tm.width * tm.height < 2 ^ 62) : tm.TotalElements64 = tm.TotalElements := by
  have hpos : 0 < tm.width * tm.height := Int.mul_pos hW hH
  have hr : InInt64 (tm.width * tm.height) := by
    unfold InInt64
    constructor <;> omega
  simp only [TorusMatrix.TotalElements64, TorusMatrix.TotalElements, mul64, wrap64_eq _ hr]

/-- Row and column of a valid index on a grid of fewer than `2 ^ 62` cells, and
their neighbours by one step, are machine integers. -/
theorem center_steps (tm : TorusMatrix) (hW : 0 < tm.width) (hH : 0 < tm.height)
    (hsize : tm.width * tm.height < 2 ^ 62) (i : Int) (h0 : 0 ≤ i)
    (h1 : i < tm.width * tm.height) (d : Int) (hd0 : -1 ≤ d) (hd1 : d ≤ 1) :
    InInt64 (i.tdiv tm.width) ∧ InInt64 (i.tmod tm.width) ∧
      InInt64 (i.tdiv tm.width + d) ∧ InInt64 (i.tmod tm.width + d) := by
  obtain ⟨hWb, hHb⟩ := dimensions_lt tm hW hH hsize
  obtain ⟨hd, hm, hr0, hr1, hc0, hc1⟩ := index_row_col_range tm hW i h0 h1
  rw [hd, hm]
  unfold InInt64
  refine ⟨⟨?_, ?_⟩, ⟨?_, ?_⟩, ⟨?_, ?_⟩, ⟨?_, ?_⟩⟩ <;> omega

/-- On a grid of fewer than `2 ^ 62` cells the machine `FindNeighbors` returns
what the exact one returns. -/
theorem findNeighbors64_eq (tm : TorusMatrix) (hW : 0 < tm.width) (hH : 0 < tm.height)
    (hsize : tm.width * tm.height < 2 ^ 62) (i : Int) :
    (NewNeighborFinder tm).FindNeighbors64 i = (NewNeighborFinder tm).FindNeighbors i := by
  have htot := totalElements64_eq tm hW hH hsize
  have hvalid : tm.IsValidIndex64 i = tm.IsValidIndex i := by
    simp only [TorusMatrix.IsValidIndex64, TorusMatrix.IsValidIndex, htot]
  cases hv : tm.IsValidIndex i
  · simp only [NeighborFinder.FindNeighbors64, NeighborFinder.FindNeighbors,
      NewNeighborFinder, hvalid, hv, Bool.not_false, if_true]
  · obtain ⟨h0, h1⟩ := (isValidIndex_iff tm i).1 hv
    have hin : ¬ (i < 0 ∨ i ≥ tm.TotalElements64) := by
      rw [htot]
      show ¬ (i < 0 ∨ i ≥ tm.width * tm.height)
      omega
    obtain ⟨c1, c2, cm1, cm2⟩ := center_steps tm hW hH hsize i h0 h1 (-1) (by decide)
      (by decide)
    obtain ⟨_, _, cz1, cz2⟩ := center_steps tm hW hH hsize i h0 h1 0 (by decide)
      (by decide)
    obtain ⟨_, _, cp1, cp2⟩ := center_steps tm hW hH hsize i h0 h1 1 (by decide)
      (by decide)
    rw [findNeighbors_ok tm i h0 h1]
    simp only [NeighborFinder.FindNeighbors64, NewNeighborFinder, hvalid, hv,
      TorusMatrix.IndexToCoordinates64, if_neg hin, div64, rem64, add64, wrap64_eq _ c1,
      wrap64_eq _ c2, wrap64_eq _ cm1, wrap64_eq _ cm2, wrap64_eq _ cz1, wrap64_eq _ cz2,
      wrap64_eq _ cp1, wrap64_eq _ cp2, coordinatesToIndex64_eq tm hW hH hsize,
      AllDirections, List.foldl, List.nil_append, List.cons_append, Bool.not_true,
      Bool.false_eq_true, if_false]

/-! ## Properties over exact integers

The statements of this section are about the definitions that compute over exact
integers, where no operation overflows.  They hold for every grid, and the next
section carries them over to the machine functions on grids of fewer than `2 ^ 62`
cells. -/

set_option maxRecDepth 100000

/-- Over exact integers: on a grid with positive width and height, every index `i` in `[0,
W*H)` is converted by `IndexToCoordinates` to some `(row, col)` without error, and
`CoordinatesToIndex row col` gives `i` back. -/
theorem index_coordinates_roundtrip_exact (tm : TorusMatrix) (hW : 0 < tm.width)
    (hH : 0 < tm.height) (i : Int) (h0 : 0 ≤ i) (h1 : i < tm.width * tm.height) :
    ∃ row col, tm.IndexToCoordinates i = .ok (row, col) ∧
      tm.CoordinatesToIndex row col = i := by
  refine ⟨i.tdiv tm.width, i.tmod tm.width, indexToCoordinates_ok tm i h0 h1, ?_⟩
  obtain ⟨hd, hm, hr0, hr1, _, _⟩ := index_row_col_range tm hW i h0 h1
  rw [coordinatesToIndex_eq tm hW hH, hd, hm, Int.emod_eq_of_lt hr0 hr1,
    Int.emod_emod_of_dvd _ (Int.dvd_refl _)]
  exact Int.ediv_add_emod' i tm.width

/-- Over exact integers: on a grid with positive width and height, `CoordinatesToIndex row
col` is a valid index for all integers `row` and `col`: it lies in `[0, W*H)` and
`IsValidIndex` accepts it. -/
theorem coordinatesToIndex_total_exact (tm : TorusMatrix) (hW : 0 < tm.width)
    (hH : 0 < tm.height) (row col : Int) :
    0 ≤ tm.CoordinatesToIndex row col ∧
      tm.CoordinatesToIndex row col < tm.width * tm.height ∧
      tm.IsValidIndex (tm.CoordinatesToIndex row col) = true := by
  obtain ⟨h0, h1⟩ := coordinatesToIndex_range tm hW hH row col
  exact ⟨h0, h1, (isValidIndex_iff tm _).2 ⟨h0, h1⟩⟩

/-- Over exact integers: on a grid with positive width and height, the double remainder
`((x % n) + n) % n` over Go's truncating `%` is the floor modulo of `row` by `H` and
of `col` by `W`, which is never negative, so that `CoordinatesToIndex row col = (row
mod H) * W + (col mod W)`; on the 4x4 grid `(-1,-1)`, `(-1,0)`, `(0,-1)`, `(5,5)` map
to `15`, `12`, `3`, `5`. -/
theorem coordinatesToIndex_floor_mod_exact (tm : TorusMatrix) (hW : 0 < tm.width)
    (hH : 0 < tm.height) (row col : Int) :
    ((row.tmod tm.height) + tm.height).tmod tm.height = row.fmod tm.height ∧
      ((col.tmod tm.width) + tm.width).tmod tm.width = col.fmod tm.width ∧
      0 ≤ row.fmod tm.height ∧ row.fmod tm.height < tm.height ∧
      0 ≤ col.fmod tm.width ∧ col.fmod tm.width < tm.width ∧
      tm.CoordinatesToIndex row col =
        row.fmod tm.height * tm.width + col.fmod tm.width ∧
      (TorusMatrix.mk 4 4).CoordinatesToIndex (-1) (-1) = 15 ∧
      (TorusMatrix.mk 4 4).CoordinatesToIndex (-1) 0 = 12 ∧
      (TorusMatrix.mk 4 4).CoordinatesToIndex 0 (-1) = 3 ∧
      (TorusMatrix.mk 4 4).CoordinatesToIndex 5 5 = 5 := by
  have hr : row.fmod tm.height = row % tm.height := Int.fmod_eq_emod _ (Int.le_of_lt hH)
  have hc : col.fmod tm.width = col % tm.width := Int.fmod_eq_emod _ (Int.le_of_lt hW)
  refine ⟨by rw [hr, wrap_eq_emod _ _ hH], by rw [hc, wrap_eq_emod _ _ hW],
    Int.fmod_nonneg' _ hH, Int.fmod_lt_of_pos _ hH, Int.fmod_nonneg' _ hW,
    Int.fmod_lt_of_pos _ hW, ?_, by decide, by decide, by decide, by decide⟩
  rw [hr, hc, coordinatesToIndex_eq tm hW hH]

/-- Over exact integers: on a grid with positive width and height and for a valid index
`i` with `row = i / W` and `col = i % W`, `FindNeighbors i` succeeds with exactly 8
indices, the `k`-th being `CoordinatesToIndex (row + dr_k) (col + dc_k)` in the order
TopLeft, Top, TopRight, Left, Right, BottomLeft, Bottom, BottomRight, and each of them
satisfies `IsValidIndex`. -/
theorem findNeighbors_eight_in_order_exact (tm : TorusMatrix) (hW : 0 < tm.width)
    (hH : 0 < tm.height) (i : Int) (h0 : 0 ≤ i) (h1 : i < tm.width * tm.height) :
    ∃ neighbors, (NewNeighborFinder tm).FindNeighbors i = .ok neighbors ∧
      neighbors.length = 8 ∧
      neighbors =
        [tm.CoordinatesToIndex (i.tdiv tm.width + -1) (i.tmod tm.width + -1),
         tm.CoordinatesToIndex (i.tdiv tm.width + -1) (i.tmod tm.width + 0),
         tm.CoordinatesToIndex (i.tdiv tm.width + -1) (i.tmod tm.width + 1),
         tm.CoordinatesToIndex (i.tdiv tm.width + 0) (i.tmod tm.width + -1),
         tm.CoordinatesToIndex (i.tdiv tm.width + 0) (i.tmod tm.width + 1),
         tm.CoordinatesToIndex (i.tdiv tm.width + 1) (i.tmod tm.width + -1),
         tm.CoordinatesToIndex (i.tdiv tm.width + 1) (i.tmod tm.width + 0),
         tm.CoordinatesToIndex (i.tdiv tm.width + 1) (i.tmod tm.width + 1)] ∧
      neighbors =
        AllDirections.map (fun d =>
          tm.CoordinatesToIndex (i.tdiv tm.width + d.RowOffset)
            (i.tmod tm.width + d.ColOffset)) ∧
      AllDirections.map (fun d => (d.RowOffset, d.ColOffset, d.Name)) =
        [(-1, -1, "TopLeft"), (-1, 0, "Top"), (-1, 1, "TopRight"), (0, -1, "Left"),
         (0, 1, "Right"), (1, -1, "BottomLeft"), (1, 0, "Bottom"),
         (1, 1, "BottomRight")] ∧
      ∀ n ∈ neighbors, tm.IsValidIndex n = true := by
  refine ⟨_, findNeighbors_ok tm i h0 h1, rfl, rfl, rfl, rfl, ?_⟩
  intro n hn
  simp only [List.mem_cons, List.mem_singleton, List.not_mem_nil, or_false] at hn
  have hv := fun r c => (coordinatesToIndex_total_exact tm hW hH r c).2.2
  rcases hn with h | h | h | h | h | h | h | h <;> rw [h] <;> exact hv _ _

/-- Over exact integers: on every grid (positive width and height are not even needed) and
for every integer `i`, `FindNeighbors i` returns an error exactly when `IsValidIndex
i` is false, that is when `i < 0` or `i >= W*H`, and then the error is the
invalid-index error with the index and the dimensions, and no neighbour list is
returned; on the 4x4 grid `-1`, `16` and `100` are rejected. -/
theorem findNeighbors_error_iff_exact (tm : TorusMatrix) (i : Int) :
    ((∃ err, (NewNeighborFinder tm).FindNeighbors i = .error err) ↔
        tm.IsValidIndex i = false) ∧
      (tm.IsValidIndex i = false ↔ (i < 0 ∨ i ≥ tm.width * tm.height)) ∧
      ((∃ neighbors, (NewNeighborFinder tm).FindNeighbors i = .ok neighbors) ↔
        tm.IsValidIndex i = true) ∧
      (tm.IsValidIndex i = false →
        (NewNeighborFinder tm).FindNeighbors i =
          .error (.invalidIndex i tm.width tm.height)) ∧
      (NewNeighborFinder ⟨4, 4⟩).FindNeighbors (-1) = .error (.invalidIndex (-1) 4 4) ∧
      (NewNeighborFinder ⟨4, 4⟩).FindNeighbors 16 = .error (.invalidIndex 16 4 4) ∧
      (NewNeighborFinder ⟨4, 4⟩).FindNeighbors 100 = .error (.invalidIndex 100 4 4) := by
  have hbad : tm.IsValidIndex i = false →
      (NewNeighborFinder tm).FindNeighbors i =
        .error (.invalidIndex i tm.width tm.height) := by
    intro hv
    simp [NeighborFinder.FindNeighbors, NewNeighborFinder, hv]
  have hgood : tm.IsValidIndex i = true →
      ∃ neighbors, (NewNeighborFinder tm).FindNeighbors i = .ok neighbors := by
    intro hv
    obtain ⟨h0, h1⟩ := (isValidIndex_iff tm i).1 hv
    exact ⟨_, findNeighbors_ok tm i h0 h1⟩
  have hrange : tm.IsValidIndex i = false ↔ (i < 0 ∨ i ≥ tm.width * tm.height) := by
    rw [← Bool.not_eq_true, isValidIndex_iff]
    omega
  refine ⟨⟨?_, fun hv => ⟨_, hbad hv⟩⟩, hrange, ⟨?_, hgood⟩, hbad, rfl, rfl, rfl⟩
  · rintro ⟨err, herr⟩
    cases hv : tm.IsValidIndex i
    · rfl
    · obtain ⟨ns, hns⟩ := hgood hv
      rw [hns] at herr
      cases herr
  · rintro ⟨ns, hns⟩
    cases hv : tm.IsValidIndex i
    · rw [hbad hv] at hns
      cases hns
    · rfl

/-- Over exact integers: `NewTorusMatrix width height` fails exactly when `width <= 0` or
`height <= 0`, with the invalid-dimensions error; when it succeeds, `Dimensions` is
`(width, height)`, `TotalElements` is `width*height`, and both dimensions of the grid
are positive. -/
theorem newTorusMatrix_iff_exact (width height : Int) :
    ((∃ err, NewTorusMatrix width height = .error err) ↔ (width ≤ 0 ∨ height ≤ 0)) ∧
      ((width ≤ 0 ∨ height ≤ 0) →
        NewTorusMatrix width height = .error (.invalidDimensions width height)) ∧
      ((∃ tm, NewTorusMatrix width height = .ok tm) ↔ (0 < width ∧ 0 < height)) ∧
      (∀ tm, NewTorusMatrix width height = .ok tm →
        tm.Dimensions = (width, height) ∧ tm.TotalElements = width * height ∧
        0 < tm.width ∧ 0 < tm.height) ∧
      (∃ tm, NewTorusMatrix 4 4 = .ok tm ∧ tm.Dimensions = (4, 4) ∧
        tm.TotalElements = 16) ∧
      NewTorusMatrix 0 4 = .error (.invalidDimensions 0 4) ∧
      NewTorusMatrix 4 (-1) = .error (.invalidDimensions 4 (-1)) := by
  refine ⟨?_, newTorusMatrix_error width height, ?_, ?_, ⟨⟨4, 4⟩, rfl, rfl, rfl⟩, rfl, rfl⟩
  · by_cases hd : width ≤ 0 ∨ height ≤ 0
    · rw [newTorusMatrix_error width height hd]
      simp [hd]
    · rw [newTorusMatrix_ok width height (by omega) (by omega)]
      simp [hd]
  · by_cases hd : width ≤ 0 ∨ height ≤ 0
    · rw [newTorusMatrix_error width height hd]
      constructor
      · rintro ⟨tm, htm⟩; cases htm
      · intro h; omega
    · rw [newTorusMatrix_ok width height (by omega) (by omega)]
      exact ⟨fun _ => by omega, fun _ => ⟨_, rfl⟩⟩
  · intro tm htm
    by_cases hd : width ≤ 0 ∨ height ≤ 0
    · rw [newTorusMatrix_error width height hd] at htm
      cases htm
    · rw [newTorusMatrix_ok width height (by omega) (by omega)] at htm
      cases htm
      exact ⟨rfl, rfl, by show 0 < width; omega, by show 0 < height; omega⟩

/-- Over exact integers: on a grid with positive width (and so on every grid with positive
width and height) and for every integer `i`, `IndexToCoordinates i` fails exactly when
`i < 0` or `i >= W*H`, which is exactly when `IsValidIndex i` is false; when it
succeeds it returns `row = i / W` and `col = i % W`, with `0 <= row < H` and `0 <= col
< W`.  On the 4x4 grid `5 -> (1,1)`, `12 -> (3,0)`, `15 -> (3,3)`, and `16` and `-1`
are rejected. -/
theorem indexToCoordinates_iff_exact (tm : TorusMatrix) (hW : 0 < tm.width) (i : Int) :
    ((∃ err, tm.IndexToCoordinates i = .error err) ↔
        (i < 0 ∨ i ≥ tm.width * tm.height)) ∧
      ((i < 0 ∨ i ≥ tm.width * tm.height) ↔ tm.IsValidIndex i = false) ∧
      ((i < 0 ∨ i ≥ tm.width * tm.height) →
        tm.IndexToCoordinates i = .error (.indexOutOfBounds i tm.width tm.height)) ∧
      (tm.IsValidIndex i = true →
        tm.IndexToCoordinates i = .ok (i.tdiv tm.width, i.tmod tm.width)) ∧
      (∀ row col, tm.IndexToCoordinates i = .ok (row, col) →
        row = i.tdiv tm.width ∧ col = i.tmod tm.width ∧
        row = i / tm.width ∧ col = i % tm.width ∧
        0 ≤ row ∧ row < tm.height ∧ 0 ≤ col ∧ col < tm.width) ∧
      (TorusMatrix.mk 4 4).IndexToCoordinates 5 = .ok (1, 1) ∧
      (TorusMatrix.mk 4 4).IndexToCoordinates 12 = .ok (3, 0) ∧
      (TorusMatrix.mk 4 4).IndexToCoordinates 15 = .ok (3, 3) ∧
      (TorusMatrix.mk 4 4).IndexToCoordinates 16 = .error (.indexOutOfBounds 16 4 4) ∧
      (TorusMatrix.mk 4 4).IndexToCoordinates (-1) =
        .error (.indexOutOfBounds (-1) 4 4) := by
  have hbad : (i < 0 ∨ i ≥ tm.width * tm.height) →
      tm.IndexToCoordinates i = .error (.indexOutOfBounds i tm.width tm.height) := by
    intro h
    simp only [TorusMatrix.IndexToCoordinates, TorusMatrix.TotalElements, if_pos h]
  have hvalid : (i < 0 ∨ i ≥ tm.width * tm.height) ↔ tm.IsValidIndex i = false := by
    rw [← Bool.not_eq_true, isValidIndex_iff]
    omega
  refine ⟨?_, hvalid, hbad, ?_, ?_, rfl, rfl, rfl, rfl, rfl⟩
  · by_cases h : i < 0 ∨ i ≥ tm.width * tm.height
    · exact ⟨fun _ => h, fun _ => ⟨_, hbad h⟩⟩
    · rw [indexToCoordinates_ok tm i (by omega) (by omega)]
      constructor
      · rintro ⟨err, herr⟩; cases herr
      · intro h'; exact absurd h' h
  · intro hv
    obtain ⟨h0, h1⟩ := (isValidIndex_iff tm i).1 hv
    exact indexToCoordinates_ok tm i h0 h1
  · intro row col hok
    by_cases h : i < 0 ∨ i ≥ tm.width * tm.height
    · rw [hbad h] at hok
      cases hok
    · have h0 : 0 ≤ i := by omega
      have h1 : i < tm.width * tm.height := by omega
      rw [indexToCoordinates_ok tm i h0 h1] at hok
      cases hok
      obtain ⟨hd, hm, hr0, hr1, hc0, hc1⟩ := index_row_col_range tm hW i h0 h1
      exact ⟨rfl, rfl, hd, hm, hd ▸ hr0, hd ▸ hr1, hm ▸ hc0, hm ▸ hc1⟩

/-- Over exact integers: on a grid with positive width and height the wrapped index is
periodic in both coordinates independently: `CoordinatesToIndex (row + a*H) (col +
b*W)` equals `CoordinatesToIndex row col` for all integers `row`, `col`, `a`, `b`; in
particular row `H` is row `0`, column `W` is column `0`, row `-1` is row `H-1` and
column `-1` is column `W-1`. -/
theorem coordinatesToIndex_periodic_exact (tm : TorusMatrix) (hW : 0 < tm.width)
    (hH : 0 < tm.height) (row col a b : Int) :
    tm.CoordinatesToIndex (row + a * tm.height) (col + b * tm.width) =
        tm.CoordinatesToIndex row col ∧
      tm.CoordinatesToIndex tm.height col = tm.CoordinatesToIndex 0 col ∧
      tm.CoordinatesToIndex row tm.width = tm.CoordinatesToIndex row 0 ∧
      tm.CoordinatesToIndex (-1) col = tm.CoordinatesToIndex (tm.height - 1) col ∧
      tm.CoordinatesToIndex row (-1) = tm.CoordinatesToIndex row (tm.width - 1) := by
  refine ⟨?_, ?_, ?_, ?_, ?_⟩
  · rw [coordinatesToIndex_eq tm hW hH, coordinatesToIndex_eq tm hW hH,
      Int.add_mul_emod_self, Int.add_mul_emod_self]
  · rw [← coordinatesToIndex_add_height tm hW hH 0 col, Int.zero_add]
  · rw [← coordinatesToIndex_add_width tm hW hH row 0, Int.zero_add]
  · rw [← coordinatesToIndex_add_height tm hW hH (-1) col]
    congr 1
    omega
  · rw [← coordinatesToIndex_add_width tm hW hH row (-1)]
    congr 1
    omega

/-- Over exact integers: on a grid with positive width and height and for all integers
`row` and `col`, `IndexToCoordinates (CoordinatesToIndex row col)` does not fail and
is `(row mod H, col mod W)` with the non-negative modulo; for `0 <= row < H` and `0 <=
col < W`, `CoordinatesToIndex row col = row*W + col` and `IndexToCoordinates` gives
`(row, col)` back. -/
theorem coordinates_index_roundtrip_exact (tm : TorusMatrix) (hW : 0 < tm.width)
    (hH : 0 < tm.height) (row col : Int) :
    tm.IndexToCoordinates (tm.CoordinatesToIndex row col) =
        .ok (row % tm.height, col % tm.width) ∧
      row % tm.height = row.fmod tm.height ∧ col % tm.width = col.fmod tm.width ∧
      0 ≤ row % tm.height ∧ row % tm.height < tm.height ∧
      0 ≤ col % tm.width ∧ col % tm.width < tm.width ∧
      (0 ≤ row → row < tm.height → 0 ≤ col → col < tm.width →
        tm.CoordinatesToIndex row col = row * tm.width + col ∧
        tm.IndexToCoordinates (tm.CoordinatesToIndex row col) = .ok (row, col)) := by
  refine ⟨indexToCoordinates_coordinatesToIndex tm hW hH row col,
    (Int.fmod_eq_emod _ (Int.le_of_lt hH)).symm, (Int.fmod_eq_emod _ (Int.le_of_lt hW)).symm,
    Int.emod_nonneg _ (by omega), Int.emod_lt_of_pos _ hH, Int.emod_nonneg _ (by omega),
    Int.emod_lt_of_pos _ hW, fun hr0 hr1 hc0 hc1 => ⟨?_, ?_⟩⟩
  · exact coordinatesToIndex_inside tm hW hH row col hr0 hr1 hc0 hc1
  · rw [indexToCoordinates_coordinatesToIndex tm hW hH row col,
      Int.emod_eq_of_lt hr0 hr1, Int.emod_eq_of_lt hc0 hc1]

/-- Over exact integers: on a grid with `W >= 3` and `H >= 3` and for a valid index `i`,
the 8 indices returned by `FindNeighbors i` are pairwise distinct and none of them is
`i`.  On the 3x1 grid this fails: index 2 gives `[1,2,0,1,0,1,2,0]`, which repeats
entries and contains the centre. -/
theorem findNeighbors_distinct_exact (tm : TorusMatrix) (hW : 3 ≤ tm.width)
    (hH : 3 ≤ tm.height) (i : Int) (h0 : 0 ≤ i) (h1 : i < tm.width * tm.height) :
    (∃ neighbors, (NewNeighborFinder tm).FindNeighbors i = .ok neighbors ∧
        neighbors.length = 8 ∧ neighbors.Nodup ∧ i ∉ neighbors) ∧
      (NewNeighborFinder ⟨3, 1⟩).FindNeighbors 2 = .ok [1, 2, 0, 1, 0, 1, 2, 0] ∧
      ¬ ([1, 2, 0, 1, 0, 1, 2, 0] : List Int).Nodup ∧
      (2 : Int) ∈ ([1, 2, 0, 1, 0, 1, 2, 0] : List Int) := by
  refine ⟨⟨_, findNeighbors_ok tm i h0 h1, rfl, ?_⟩, rfl, by decide, by decide⟩
  have hWp : 0 < tm.width := by omega
  have hHp : 0 < tm.height := by omega
  obtain ⟨hd, hm, hr0, hr1, hc0, hc1⟩ := index_row_col_range tm hWp i h0 h1
  have hi : i / tm.width * tm.width + i % tm.width = i := Int.ediv_add_emod' i tm.width
  rw [hd, hm]
  simp only [coordinatesToIndex_eq tm hWp hHp]
  have hrm := emod_pred_cases _ _ hr0 hr1
  have hrz := emod_zero_cases _ _ hr0 hr1
  have hrp := emod_succ_cases _ _ hr0 hr1
  have hcm := emod_pred_cases _ _ hc0 hc1
  have hcz := emod_zero_cases _ _ hc0 hc1
  have hcp := emod_succ_cases _ _ hc0 hc1
  have key := block_nodup tm.width ((i / tm.width + -1) % tm.height)
    ((i / tm.width + 0) % tm.height) ((i / tm.width + 1) % tm.height)
    ((i % tm.width + -1) % tm.width) ((i % tm.width + 0) % tm.width)
    ((i % tm.width + 1) % tm.width)
    (by rw [hrm, hrz, hrp]; split_ifs <;> omega)
    (by rw [hcm, hcz, hcp]; split_ifs <;> omega)
    ⟨Int.emod_nonneg _ (by omega), Int.emod_lt_of_pos _ hWp⟩
    ⟨Int.emod_nonneg _ (by omega), Int.emod_lt_of_pos _ hWp⟩
    ⟨Int.emod_nonneg _ (by omega), Int.emod_lt_of_pos _ hWp⟩
  simp only [List.map_cons, List.map_nil] at key
  obtain ⟨hnot, hnodup⟩ := List.nodup_cons.1 key
  rw [hrz, hcz, hi] at hnot
  rw [hrz, hcz] at hnodup
  rw [hrz, hcz]
  exact ⟨hnodup, hnot⟩

/-- Over exact integers: on a grid with positive width and height and for a valid index
`i`, if `j` is the `k`-th element of `FindNeighbors i` (`k` in `0..7`) then
`FindNeighbors j` succeeds and its `(7-k)`-th element is `i`; the directions at
positions `k` and `7-k` are opposite.  Hence, for valid `i` and `j`, `j` is among the
neighbours of `i` exactly when `i` is among the neighbours of `j`. -/
theorem findNeighbors_symmetric_exact (tm : TorusMatrix) (hW : 0 < tm.width)
    (hH : 0 < tm.height) (i : Int) (h0 : 0 ≤ i) (h1 : i < tm.width * tm.height) :
    (∃ neighbors, (NewNeighborFinder tm).FindNeighbors i = .ok neighbors ∧
        ∀ (k : Nat) (j : Int), k < 8 → neighbors[k]? = some j →
          ∃ back, (NewNeighborFinder tm).FindNeighbors j = .ok back ∧
            back[7 - k]? = some i) ∧
      AllDirections.reverse.map (fun d => (d.RowOffset, d.ColOffset)) =
        AllDirections.map (fun d => (-d.RowOffset, -d.ColOffset)) ∧
      ∀ j : Int, 0 ≤ j → j < tm.width * tm.height →
        ((∃ neighbors, (NewNeighborFinder tm).FindNeighbors i = .ok neighbors ∧
            j ∈ neighbors) ↔
          (∃ back, (NewNeighborFinder tm).FindNeighbors j = .ok back ∧ i ∈ back)) := by
  refine ⟨⟨_, findNeighbors_ok tm i h0 h1, fun k j _ hk => ?_⟩, by decide,
    fun j hj0 hj1 => ⟨?_, ?_⟩⟩
  · exact (findNeighbors_mirror tm hW hH i h0 h1 _ (findNeighbors_ok tm i h0 h1) k j
      hk).2.2
  · rintro ⟨neighbors, hn, hmem⟩
    obtain ⟨k, hk⟩ := List.mem_iff_getElem?.1 hmem
    obtain ⟨_, _, back, hb, hback⟩ := findNeighbors_mirror tm hW hH i h0 h1 _ hn k j hk
    exact ⟨back, hb, List.getElem?_mem hback⟩
  · rintro ⟨back, hb, hmem⟩
    obtain ⟨k, hk⟩ := List.mem_iff_getElem?.1 hmem
    obtain ⟨_, _, neighbors, hn, hfwd⟩ :=
      findNeighbors_mirror tm hW hH j hj0 hj1 _ hb k i hk
    exact ⟨neighbors, hn, List.getElem?_mem hfwd⟩

/-- Two loops whose bodies agree on the elements met give the same result. -/
theorem foldl_congr_mem {α β : Type} (f g : β → α → β) (l : List α)
    (h : ∀ x ∈ l, ∀ b, f b x = g b x) : ∀ init : β, l.foldl f init = l.foldl g init := by
  induction l with
  | nil => intro init; rfl
  | cons a l ih =>
    intro init
    rw [List.foldl_cons, List.foldl_cons, h a (List.mem_cons_self a l) init,
      ih (fun x hx => h x (List.mem_cons_of_mem a hx))]

/-- The wrapped cell count is always a machine integer. -/
theorem wrap64_range (x : Int) : InInt64 (wrap64 x) := by
  unfold InInt64 wrap64
  omega

/-- The machine `IsValidIndex` decides `0 ≤ i < TotalElements()`. -/
theorem isValidIndex64_iff (tm : TorusMatrix) (i : Int) :
    tm.IsValidIndex64 i = true ↔ 0 ≤ i ∧ i < tm.TotalElements64 := by
  simp [TorusMatrix.IsValidIndex64]

/-- On a grid of fewer than `2 ^ 62` cells the machine `IsValidIndex` is exact. -/
theorem isValidIndex64_eq (tm : TorusMatrix) (hW : 0 < tm.width) (hH : 0 < tm.height)
    (hsize : tm.width * tm.height < 2 ^ 62) (i : Int) :
    tm.IsValidIndex64 i = tm.IsValidIndex i := by
  simp only [TorusMatrix.IsValidIndex64, TorusMatrix.IsValidIndex,
    totalElements64_eq tm hW hH hsize]

/-- The machine quotient and remainder of a non-negative machine integer by a
positive number are exact. -/
theorem div64_rem64_nonneg (i w : Int) (h0 : 0 ≤ i) (h1 : i < 2 ^ 63) (hw : 0 < w) :
    div64 i w = i.tdiv w ∧ rem64 i w = i.tmod w := by
  have hd : i.tdiv w = i / w := Int.tdiv_eq_ediv h0 (Int.le_of_lt hw)
  have hm : i.tmod w = i % w := Int.tmod_eq_emod h0 (Int.le_of_lt hw)
  have hq0 : 0 ≤ i / w := Int.ediv_nonneg h0 (Int.le_of_lt hw)
  have hq1 : i / w ≤ i := Int.ediv_le_self w h0
  have hr0 : 0 ≤ i % w := Int.emod_nonneg _ (by omega)
  have hr1 : i % w ≤ i := by
    have := Int.emod_add_ediv i w
    have : 0 ≤ w * (i / w) := Int.mul_nonneg (Int.le_of_lt hw) hq0
    omega
  constructor
  · rw [div64, wrap64_eq _ (by unfold InInt64; rw [hd]; constructor <;> omega)]
  · rw [rem64, wrap64_eq _ (by unfold InInt64; rw [hm]; constructor <;> omega)]

/-- The machine `IndexToCoordinates` on a valid index of any grid of positive
width: the exact quotient and remainder. -/
theorem indexToCoordinates64_ok (tm : TorusMatrix) (hW : 0 < tm.width) (i : Int)
    (h0 : 0 ≤ i) (h1 : i < tm.TotalElements64) :
    tm.IndexToCoordinates64 i = .ok (i.tdiv tm.width, i.tmod tm.width) := by
  have hT : tm.TotalElements64 < 2 ^ 63 := (wrap64_range _).2
  have hin : ¬ (i < 0 ∨ i ≥ tm.TotalElements64) := by omega
  obtain ⟨hd, hm⟩ := div64_rem64_nonneg i tm.width h0 (by omega) hW
  simp only [TorusMatrix.IndexToCoordinates64, if_neg hin, hd, hm]

/-- On a grid of fewer than `2 ^ 62` cells the machine `IndexToCoordinates` is
exact. -/
theorem indexToCoordinates64_eq (tm : TorusMatrix) (hW : 0 < tm.width) (hH : 0 < tm.height)
    (hsize : tm.width * tm.height < 2 ^ 62) (i : Int) :
    tm.IndexToCoordinates64 i = tm.IndexToCoordinates i := by
  have htot := totalElements64_eq tm hW hH hsize
  by_cases hin : i < 0 ∨ i ≥ tm.TotalElements
  · have hin' : i < 0 ∨ i ≥ tm.TotalElements64 := by rw [htot]; exact hin
    simp only [TorusMatrix.IndexToCoordinates64, TorusMatrix.IndexToCoordinates, if_pos hin,
      if_pos hin']
  · have h0 : 0 ≤ i := by omega
    have h1 : i < tm.width * tm.height := by
      have : ¬ i ≥ tm.TotalElements := fun h => hin (Or.inr h)
      simpa [TorusMatrix.TotalElements] using this
    rw [indexToCoordinates64_ok tm hW i h0 (by rw [htot]; exact h1),
      indexToCoordinates_ok tm i h0 h1]

/-- On a grid of fewer than `2 ^ 62` cells `make` does not panic and the machine
`GenerateWrappedMatrix` returns the exact matrix. -/
theorem generateWrappedMatrix64_eq (tm : TorusMatrix) (hW : 0 < tm.width)
    (hH : 0 < tm.height) (hsize : tm.width * tm.height < 2 ^ 62) :
    (NewMatrixHasher tm).GenerateWrappedMatrix64 =
      some (NewMatrixHasher tm).GenerateWrappedMatrix := by
  obtain ⟨hWb, hHb⟩ := dimensions_lt tm hW hH hsize
  have hh : add64 tm.height 2 = tm.height + 2 :=
    wrap64_eq _ (by unfold InInt64; constructor <;> omega)
  have hw : add64 tm.width 2 = tm.width + 2 :=
    wrap64_eq _ (by unfold InInt64; constructor <;> omega)
  have hno : ¬ (tm.height + 2 < 0 ∨ (0 < tm.height + 2 ∧ tm.width + 2 < 0)) := by omega
  simp only [MatrixHasher.GenerateWrappedMatrix64, MatrixHasher.GenerateWrappedMatrix,
    NewMatrixHasher, TorusMatrix.Dimensions, hh, hw, if_neg hno]
  congr 1
  apply foldl_congr_mem
  intro extRow hRow ext
  apply foldl_congr_mem
  intro extCol hCol ext'
  rw [List.mem_range] at hRow hCol
  have hr : sub64 (extRow : Int) 1 = (extRow : Int) - 1 :=
    wrap64_eq _ (by unfold InInt64; constructor <;> omega)
  have hc : sub64 (extCol : Int) 1 = (extCol : Int) - 1 :=
    wrap64_eq _ (by unfold InInt64; constructor <;> omega)
  simp only [hr, hc, coordinatesToIndex64_eq tm hW hH hsize]

/-- On a grid of fewer than `2 ^ 62` cells the machine `GenerateMatrixString`
returns the exact string. -/
theorem generateMatrixString64_eq (tm : TorusMatrix) (hW : 0 < tm.width)
    (hH : 0 < tm.height) (hsize : tm.width * tm.height < 2 ^ 62) :
    (NewMatrixHasher tm).GenerateMatrixString64 =
      some (NewMatrixHasher tm).GenerateMatrixString := by
  simp only [MatrixHasher.GenerateMatrixString64, generateWrappedMatrix64_eq tm hW hH hsize,
    MatrixHasher.GenerateMatrixString]

/-- On a grid of fewer than `2 ^ 62` cells the machine `CalculateHash` returns
the exact hash. -/
theorem calculateHash64_eq (tm : TorusMatrix) (hW : 0 < tm.width) (hH : 0 < tm.height)
    (hsize : tm.width * tm.height < 2 ^ 62) :
    (NewMatrixHasher tm).CalculateHash64 = some (NewMatrixHasher tm).CalculateHash := by
  simp only [MatrixHasher.CalculateHash64, generateMatrixString64_eq tm hW hH hsize,
    MatrixHasher.CalculateHash]

/-- Parsing the rendering of a non-negative machine integer gives it back. -/
theorem atoi64_itoa (e : Int) (h0 : 0 ≤ e) (h1 : e < 2 ^ 63) : Atoi64 (Itoa e) = some e := by
  have hr : -(2 ^ 63) ≤ e ∧ e < 2 ^ 63 := by omega
  simp only [Atoi64, atoi_itoa e h0, if_pos hr]

/-- The wrap-around of a non-negative exact result never exceeds it. -/
theorem wrap64_le (x : Int) (hx : 0 ≤ x) : wrap64 x ≤ x := by
  unfold wrap64
  omega

/-! ## Overflow on very large grids

Evaluations of the machine functions on the grids `(2^63 - 1) x 1`, `2^32 x 2^32`
and `2^32 x (2^32 + 1)`, where an intermediate result leaves the signed 64-bit
range. -/

/-- On the grid `(2^63 - 1) x 1` the machine `CoordinatesToIndex 0 (2^63 - 3)` is
`-4`: `col % W + W` wraps around. -/
theorem coordinatesToIndex64_wraps :
    (TorusMatrix.mk (2 ^ 63 - 1) 1).CoordinatesToIndex64 0 (2 ^ 63 - 3) = -4 := by
  decide

/-- On the grid `2^32 x 2^32` the machine cell count is 0. -/
theorem totalElements64_wraps : (TorusMatrix.mk (2 ^ 32) (2 ^ 32)).TotalElements64 = 0 := by
  decide

/-- On the grid `(2^63 - 1) x 1` the machine neighbours of `2^63 - 2`. -/
theorem findNeighbors64_wraps :
    (NewNeighborFinder ⟨2 ^ 63 - 1, 1⟩).FindNeighbors64 (2 ^ 63 - 2) =
      .ok [-4, -3, 0, -4, 0, -4, -3, 0] := by
  rfl

/-! ## Small grids on the machine functions

The fixtures and the facts about every grid that the claims below state on the exact
functions, on the machine functions. -/

/-- The four neighbour fixtures on the machine `FindNeighbors`. -/
theorem findNeighbors64_fixtures :
    (NewNeighborFinder ⟨4, 4⟩).FindNeighbors64 5 = .ok [0, 1, 2, 4, 6, 8, 9, 10] ∧
      (NewNeighborFinder ⟨4, 4⟩).FindNeighbors64 0 = .ok [15, 12, 13, 3, 1, 7, 4, 5] ∧
      (NewNeighborFinder ⟨5, 4⟩).FindNeighbors64 1 = .ok [15, 16, 17, 0, 2, 5, 6, 7] ∧
      (NewNeighborFinder ⟨3, 1⟩).FindNeighbors64 2 = .ok [1, 2, 0, 1, 0, 1, 2, 0] :=
  ⟨rfl, rfl, rfl, rfl⟩

/-- The 4x4 grid on the machine hasher: the serialized matrix and its hash. -/
theorem calculateHash64_4x4 :
    (NewMatrixHasher ⟨4, 4⟩).GenerateMatrixString64 =
        some (NewMatrixHasher ⟨4, 4⟩).GenerateMatrixString ∧
      (NewMatrixHasher ⟨4, 4⟩).CalculateHash64 =
        some "hJVz5fi5z2YecMNLsihGJQHBpAGUAYitNUOFGmjBg38=" := by
  refine ⟨generateMatrixString64_eq ⟨4, 4⟩ (by decide) (by decide) (by decide), ?_⟩
  rw [calculateHash64_eq ⟨4, 4⟩ (by decide) (by decide) (by decide), calculateHash_4x4]

/-- The 1x1 grid on the machine functions: every coordinate pair is index 0. -/
theorem one_by_one64 :
    (∀ row col : Int, (TorusMatrix.mk 1 1).CoordinatesToIndex64 row col = 0) ∧
      (NewNeighborFinder ⟨1, 1⟩).FindNeighbors64 0 = .ok [0, 0, 0, 0, 0, 0, 0, 0] ∧
      (NewMatrixHasher ⟨1, 1⟩).GenerateWrappedMatrix64 =
        some [[0, 0, 0], [0, 0, 0], [0, 0, 0]] := by
  refine ⟨fun row col => ?_, rfl, by decide⟩
  rw [coordinatesToIndex64_eq ⟨1, 1⟩ (by decide) (by decide) (by decide),
    coordinatesToIndex_eq ⟨1, 1⟩ (by decide) (by decide)]
  show row % 1 * 1 + col % 1 = 0
  omega

/-- On every grid the machine `FindNeighbors` succeeds on an index that the machine
`IsValidIndex` accepts, and returns the invalid-index error on any other. -/
theorem findNeighbors64_cases (tm : TorusMatrix) (i : Int) :
    (tm.IsValidIndex64 i = true →
        ∃ neighbors, (NewNeighborFinder tm).FindNeighbors64 i = .ok neighbors) ∧
      (tm.IsValidIndex64 i = false →
        (NewNeighborFinder tm).FindNeighbors64 i =
          .error (.invalidIndex i tm.width tm.height)) := by
  constructor
  · intro hv
    obtain ⟨h0, h1⟩ := (isValidIndex64_iff tm i).1 hv
    have hin : ¬ (i < 0 ∨ i ≥ tm.TotalElements64) := by omega
    simp only [NeighborFinder.FindNeighbors64, NewNeighborFinder, hv,
      TorusMatrix.IndexToCoordinates64, if_neg hin, Bool.not_true, Bool.false_eq_true,
      if_false]
    exact ⟨_, rfl⟩
  · intro hv
    simp [NeighborFinder.FindNeighbors64, NewNeighborFinder, hv]

/-- On every grid, overflow or not, the machine `FindNeighbors` never returns its
conversion error and the machine `ComputeSolution` never returns its
find-neighbours error. -/
theorem defensive_branches64 :
    (∀ (tm : TorusMatrix) (i : Int) (inner : Error),
        (NewNeighborFinder tm).FindNeighbors64 i ≠ .error (.convertFailed inner)) ∧
      ∀ (width height targetIndex : Int) (inner : Error),
        ComputeSolution64 width height targetIndex ≠
          some (.error (.findNeighborsFailed inner)) := by
  constructor
  · intro tm i inner h
    cases hv : tm.IsValidIndex64 i
    · rw [(findNeighbors64_cases tm i).2 hv] at h
      cases h
    · obtain ⟨ns, hns⟩ := (findNeighbors64_cases tm i).1 hv
      rw [hns] at h
      cases h
  · intro width height targetIndex inner h
    by_cases hd : width ≤ 0 ∨ height ≤ 0
    · simp only [ComputeSolution64, newTorusMatrix_error width height hd] at h
      cases h
    · have hw : 0 < width := by omega
      have hh : 0 < height := by omega
      simp only [ComputeSolution64, newTorusMatrix_ok width height hw hh] at h
      cases hv : (TorusMatrix.mk width height).IsValidIndex64 targetIndex
      · simp only [hv, Bool.not_false, if_true] at h
        cases h
      · obtain ⟨ns, hns⟩ := (findNeighbors64_cases ⟨width, height⟩ targetIndex).1 hv
        simp only [hv, Bool.not_true, Bool.false_eq_true, if_false, hns] at h
        cases hc : (NewMatrixHasher ⟨width, height⟩).CalculateHash64
        · rw [hc] at h
          cases h
        · rw [hc] at h
          cases h

/-! ## Claims

The claims about arbitrary grids are stated on the machine functions, those with the
suffix `64`; the fixtures on small grids are evaluated on the exact functions, which
agree with the machine functions there. -/

/-- Counterexample to C1 as stated: on the grid `(2^63 - 1) x 1` the index
`2^63 - 3` is in `[0, W*H)` and is converted to `(0, 2^63 - 3)`, but
`CoordinatesToIndex` maps that pair to `-4`. -/
theorem index_coordinates_roundtrip_fails :
    ((0 : Int) < 2 ^ 63 - 1 ∧ (0 : Int) < 1 ∧ (0 : Int) ≤ 2 ^ 63 - 3 ∧
        (2 ^ 63 - 3 : Int) < (2 ^ 63 - 1) * 1) ∧
      (TorusMatrix.mk (2 ^ 63 - 1) 1).IndexToCoordinates64 (2 ^ 63 - 3) =
        .ok (0, 2 ^ 63 - 3) ∧
      ¬ ∃ row col, (TorusMatrix.mk (2 ^ 63 - 1) 1).IndexToCoordinates64 (2 ^ 63 - 3) =
          .ok (row, col) ∧
        (TorusMatrix.mk (2 ^ 63 - 1) 1).CoordinatesToIndex64 row col = 2 ^ 63 - 3 := by
  refine ⟨by decide, rfl, ?_⟩
  rintro ⟨row, col, h1, h2⟩
  have h : (TorusMatrix.mk (2 ^ 63 - 1) 1).IndexToCoordinates64 (2 ^ 63 - 3) =
      .ok (0, 2 ^ 63 - 3) := rfl
  rw [h] at h1
  injection h1 with h1
  injection h1 with hr hc
  subst hr
  subst hc
  rw [coordinatesToIndex64_wraps] at h2
  exact absurd h2 (by decide)

/-- C1 (amended): on a grid with positive width and height and fewer than `2^62`
cells, every index `i` in `[0, W*H)` is converted by `IndexToCoordinates` to some
`(row, col)` without error, and `CoordinatesToIndex row col` gives `i` back. -/
theorem index_coordinates_roundtrip_int64 (tm : TorusMatrix) (hW : 0 < tm.width)
    (hH : 0 < tm.height) (hsize : tm.width * tm.height < 2 ^ 62) (i : Int) (h0 : 0 ≤ i)
    (h1 : i < tm.width * tm.height) :
    ∃ row col, tm.IndexToCoordinates64 i = .ok (row, col) ∧
      tm.CoordinatesToIndex64 row col = i := by
  obtain ⟨row, col, hok, hback⟩ := index_coordinates_roundtrip_exact tm hW hH i h0 h1
  exact ⟨row, col, by rw [indexToCoordinates64_eq tm hW hH hsize, hok],
    by rw [coordinatesToIndex64_eq tm hW hH hsize, hback]⟩

/-- Witness of C1 (amended) on the 5x4 grid at index 17. -/
theorem index_coordinates_roundtrip_int64_witness :
    ∃ row col, (TorusMatrix.mk 5 4).IndexToCoordinates64 17 = .ok (row, col) ∧
      (TorusMatrix.mk 5 4).CoordinatesToIndex64 row col = 17 :=
  index_coordinates_roundtrip_int64 ⟨5, 4⟩ (by decide) (by decide) (by decide) 17
    (by decide) (by decide)

/-- Counterexample to C2 as stated: on the grid `(2^63 - 1) x 1`
`CoordinatesToIndex 0 (2^63 - 3)` is `-4`, which is negative and is not a valid
index. -/
theorem coordinatesToIndex_total_fails :
    ((0 : Int) < 2 ^ 63 - 1 ∧ (0 : Int) < 1) ∧
      ¬ (0 ≤ (TorusMatrix.mk (2 ^ 63 - 1) 1).CoordinatesToIndex64 0 (2 ^ 63 - 3) ∧
        (TorusMatrix.mk (2 ^ 63 - 1) 1).CoordinatesToIndex64 0 (2 ^ 63 - 3) <
          (2 ^ 63 - 1) * 1 ∧
        (TorusMatrix.mk (2 ^ 63 - 1) 1).IsValidIndex64
          ((TorusMatrix.mk (2 ^ 63 - 1) 1).CoordinatesToIndex64 0 (2 ^ 63 - 3)) = true) := by
  refine ⟨by decide, ?_⟩
  rw [coordinatesToIndex64_wraps]
  decide

/-- C2 (amended): on a grid with positive width and height and fewer than `2^62`
cells, `CoordinatesToIndex row col` is a valid index for all `row` and `col`: it
lies in `[0, W*H)` and `IsValidIndex` accepts it. -/
theorem coordinatesToIndex_total_int64 (tm : TorusMatrix) (hW : 0 < tm.width)
    (hH : 0 < tm.height) (hsize : tm.width * tm.height < 2 ^ 62) (row col : Int) :
    0 ≤ tm.CoordinatesToIndex64 row col ∧
      tm.CoordinatesToIndex64 row col < tm.width * tm.height ∧
      tm.IsValidIndex64 (tm.CoordinatesToIndex64 row col) = true := by
  rw [coordinatesToIndex64_eq tm hW hH hsize, isValidIndex64_eq tm hW hH hsize]
  exact coordinatesToIndex_total_exact tm hW hH row col

/-- Witness of C2 (amended) on the 5x4 grid at the coordinates `(-2^63, 2^63 - 1)`. -/
theorem coordinatesToIndex_total_int64_witness :
    0 ≤ (TorusMatrix.mk 5 4).CoordinatesToIndex64 (-(2 ^ 63)) (2 ^ 63 - 1) ∧
      (TorusMatrix.mk 5 4).CoordinatesToIndex64 (-(2 ^ 63)) (2 ^ 63 - 1) <
        (TorusMatrix.mk 5 4).width * (TorusMatrix.mk 5 4).height ∧
      (TorusMatrix.mk 5 4).IsValidIndex64
        ((TorusMatrix.mk 5 4).CoordinatesToIndex64 (-(2 ^ 63)) (2 ^ 63 - 1)) = true :=
  coordinatesToIndex_total_int64 ⟨5, 4⟩ (by decide) (by decide) (by decide) (-(2 ^ 63))
    (2 ^ 63 - 1)

/-- Counterexample to C3 as stated: on the grid `(2^63 - 1) x 1` the double
remainder of `col = 2^63 - 3` is `-4`, not the floor modulo `2^63 - 3`, and
`CoordinatesToIndex 0 col` is not `(0 mod H) * W + (col mod W)`. -/
theorem coordinatesToIndex_floor_mod_fails :
    ((0 : Int) < 2 ^ 63 - 1 ∧ (0 : Int) < 1) ∧
      rem64 (add64 (rem64 (2 ^ 63 - 3) (2 ^ 63 - 1)) (2 ^ 63 - 1)) (2 ^ 63 - 1) = -4 ∧
      (2 ^ 63 - 3 : Int).fmod (2 ^ 63 - 1) = 2 ^ 63 - 3 ∧
      (TorusMatrix.mk (2 ^ 63 - 1) 1).CoordinatesToIndex64 0 (2 ^ 63 - 3) ≠
        (0 : Int).fmod 1 * (2 ^ 63 - 1) + (2 ^ 63 - 3 : Int).fmod (2 ^ 63 - 1) := by
  refine ⟨by decide, by decide, by decide, ?_⟩
  rw [coordinatesToIndex64_wraps]
  decide

/-- C3 (amended): on a grid with positive width and height and fewer than `2^62`
cells, the machine double remainder `((x % n) + n) % n` is the floor modulo of
`row` by `H` and of `col` by `W`, which is never negative, so that
`CoordinatesToIndex row col = (row mod H) * W + (col mod W)`; on the 4x4 grid
`(-1,-1)`, `(-1,0)`, `(0,-1)`, `(5,5)` map to `15`, `12`, `3`, `5`. -/
theorem coordinatesToIndex_floor_mod_int64 (tm : TorusMatrix) (hW : 0 < tm.width)
    (hH : 0 < tm.height) (hsize : tm.width * tm.height < 2 ^ 62) (row col : Int) :
    rem64 (add64 (rem64 row tm.height) tm.height) tm.height = row.fmod tm.height ∧
      rem64 (add64 (rem64 col tm.width) tm.width) tm.width = col.fmod tm.width ∧
      0 ≤ row.fmod tm.height ∧ row.fmod tm.height < tm.height ∧
      0 ≤ col.fmod tm.width ∧ col.fmod tm.width < tm.width ∧
      tm.CoordinatesToIndex64 row col =
        row.fmod tm.height * tm.width + col.fmod tm.width ∧
      (TorusMatrix.mk 4 4).CoordinatesToIndex64 (-1) (-1) = 15 ∧
      (TorusMatrix.mk 4 4).CoordinatesToIndex64 (-1) 0 = 12 ∧
      (TorusMatrix.mk 4 4).CoordinatesToIndex64 0 (-1) = 3 ∧
      (TorusMatrix.mk 4 4).CoordinatesToIndex64 5 5 = 5 := by
  obtain ⟨s1, s2, s3, s4, s5, s6, _, _⟩ := coordinatesToIndex_steps tm hW hH hsize row col
  obtain ⟨e1, e2, b1, b2, b3, b4, e3, _⟩ := coordinatesToIndex_floor_mod_exact tm hW hH row col
  refine ⟨?_, ?_, b1, b2, b3, b4, ?_, by decide, by decide, by decide, by decide⟩
  · rw [← e1]
    simp only [rem64, add64, wrap64_eq _ s1, wrap64_eq _ s3, wrap64_eq _ s5]
  · rw [← e2]
    simp only [rem64, add64, wrap64_eq _ s2, wrap64_eq _ s4, wrap64_eq _ s6]
  · rw [coordinatesToIndex64_eq tm hW hH hsize, e3]

/-- Witness of C3 (amended) on the 5x4 grid at the coordinates `(-7, 23)`. -/
theorem coordinatesToIndex_floor_mod_int64_witness :
    (TorusMatrix.mk 5 4).CoordinatesToIndex64 (-7) 23 =
      (-7 : Int).fmod 4 * 5 + (23 : Int).fmod 5 :=
  (coordinatesToIndex_floor_mod_int64 ⟨5, 4⟩ (by decide) (by decide) (by decide) (-7)
    23).2.2.2.2.2.2.1

/-- Counterexample to C4 as stated: on the grid `(2^63 - 1) x 1` the valid index
`2^63 - 2` has the neighbours `[-4,-3,0,-4,0,-4,-3,0]`, five of which are not
valid indices. -/
theorem findNeighbors_eight_in_order_fails :
    ((0 : Int) < 2 ^ 63 - 1 ∧ (0 : Int) < 1 ∧ (0 : Int) ≤ 2 ^ 63 - 2 ∧
        (2 ^ 63 - 2 : Int) < (2 ^ 63 - 1) * 1) ∧
      (NewNeighborFinder ⟨2 ^ 63 - 1, 1⟩).FindNeighbors64 (2 ^ 63 - 2) =
        .ok [-4, -3, 0, -4, 0, -4, -3, 0] ∧
      ¬ ∀ n ∈ ([-4, -3, 0, -4, 0, -4, -3, 0] : List Int),
        (TorusMatrix.mk (2 ^ 63 - 1) 1).IsValidIndex64 n = true := by
  refine ⟨by decide, rfl, ?_⟩
  intro h
  exact absurd (h (-4) (by decide)) (by decide)

/-- C4 (amended): on a grid with positive width and height and fewer than `2^62`
cells and for a valid index `i` with `row = i / W` and `col = i % W`,
`FindNeighbors i` succeeds with exactly 8 indices, the `k`-th being
`CoordinatesToIndex (row + dr_k) (col + dc_k)` in the order TopLeft, Top,
TopRight, Left, Right, BottomLeft, Bottom, BottomRight, and each of them satisfies
`IsValidIndex`. -/
theorem findNeighbors_eight_in_order_int64 (tm : TorusMatrix) (hW : 0 < tm.width)
    (hH : 0 < tm.height) (hsize : tm.width * tm.height < 2 ^ 62) (i : Int) (h0 : 0 ≤ i)
    (h1 : i < tm.width * tm.height) :
    ∃ neighbors, (NewNeighborFinder tm).FindNeighbors64 i = .ok neighbors ∧
      neighbors.length = 8 ∧
      neighbors =
        AllDirections.map (fun d =>
          tm.CoordinatesToIndex64 (add64 (div64 i tm.width) d.RowOffset)
            (add64 (rem64 i tm.width) d.ColOffset)) ∧
      AllDirections.map (fun d => (d.RowOffset, d.ColOffset, d.Name)) =
        [(-1, -1, "TopLeft"), (-1, 0, "Top"), (-1, 1, "TopRight"), (0, -1, "Left"),
         (0, 1, "Right"), (1, -1, "BottomLeft"), (1, 0, "Bottom"),
         (1, 1, "BottomRight")] ∧
      ∀ n ∈ neighbors, tm.IsValidIndex64 n = true := by
  obtain ⟨ns, hok, hlen, _, hmap, htab, hvalid⟩ :=
    findNeighbors_eight_in_order_exact tm hW hH i h0 h1
  refine ⟨ns, by rw [findNeighbors64_eq tm hW hH hsize, hok], hlen, ?_, htab, ?_⟩
  · rw [hmap]
    apply List.map_congr_left
    intro d hd
    have hoff : (-1 ≤ d.RowOffset ∧ d.RowOffset ≤ 1) ∧
        (-1 ≤ d.ColOffset ∧ d.ColOffset ≤ 1) := by
      simp only [AllDirections, List.mem_cons, List.mem_singleton, List.not_mem_nil,
        or_false] at hd
      rcases hd with h | h | h | h | h | h | h | h <;> rw [h] <;> decide
    obtain ⟨c1, c2, c3, _⟩ := center_steps tm hW hH hsize i h0 h1 _ hoff.1.1 hoff.1.2
    obtain ⟨_, _, _, c4⟩ := center_steps tm hW hH hsize i h0 h1 _ hoff.2.1 hoff.2.2
    simp only [div64, rem64, add64, wrap64_eq _ c1, wrap64_eq _ c2, wrap64_eq _ c3,
      wrap64_eq _ c4, coordinatesToIndex64_eq tm hW hH hsize]
  · intro n hn
    rw [isValidIndex64_eq tm hW hH hsize]
    exact hvalid n hn

/-- Witness of C4 (amended) on the 5x4 grid at index 1. -/
theorem findNeighbors_eight_in_order_int64_witness :
    ∃ neighbors, (NewNeighborFinder ⟨5, 4⟩).FindNeighbors64 1 = .ok neighbors ∧
      neighbors.length = 8 ∧
      ∀ n ∈ neighbors, (TorusMatrix.mk 5 4).IsValidIndex64 n = true := by
  obtain ⟨ns, hok, hlen, _, _, hv⟩ :=
    findNeighbors_eight_in_order_int64 ⟨5, 4⟩ (by decide) (by decide) (by decide) 1
      (by decide) (by decide)
  exact ⟨ns, hok, hlen, hv⟩

/-- C5: the literal neighbour fixtures: `(width, height, targetIndex)` equal to
`(4,4,5)`, `(4,4,0)`, `(5,4,1)`, `(3,1,2)` give `[0,1,2,4,6,8,9,10]`,
`[15,12,13,3,1,7,4,5]`, `[15,16,17,0,2,5,6,7]`, `[1,2,0,1,0,1,2,0]`. -/
theorem findNeighbors_fixtures :
    (do let m ← NewTorusMatrix 4 4; (NewNeighborFinder m).FindNeighbors 5) =
        .ok [0, 1, 2, 4, 6, 8, 9, 10] ∧
      (do let m ← NewTorusMatrix 4 4; (NewNeighborFinder m).FindNeighbors 0) =
        .ok [15, 12, 13, 3, 1, 7, 4, 5] ∧
      (do let m ← NewTorusMatrix 5 4; (NewNeighborFinder m).FindNeighbors 1) =
        .ok [15, 16, 17, 0, 2, 5, 6, 7] ∧
      (do let m ← NewTorusMatrix 3 1; (NewNeighborFinder m).FindNeighbors 2) =
        .ok [1, 2, 0, 1, 0, 1, 2, 0] :=
  ⟨rfl, rfl, rfl, rfl⟩

/-- Counterexample to C6 as stated: on the grid `2^32 x 2^32` the index 0
satisfies `0 <= 0 < W*H`, yet `FindNeighbors 0` returns the invalid-index error,
because `TotalElements()` wraps to 0. -/
theorem findNeighbors_error_iff_fails :
    ((0 : Int) < 2 ^ 32 ∧ (0 : Int) ≤ 0 ∧ (0 : Int) < 2 ^ 32 * 2 ^ 32) ∧
      (NewNeighborFinder ⟨2 ^ 32, 2 ^ 32⟩).FindNeighbors64 0 =
        .error (.invalidIndex 0 (2 ^ 32) (2 ^ 32)) ∧
      ¬ ((∃ err, (NewNeighborFinder ⟨2 ^ 32, 2 ^ 32⟩).FindNeighbors64 0 = .error err) ↔
        ((0 : Int) < 0 ∨ (0 : Int) ≥ 2 ^ 32 * 2 ^ 32)) := by
  refine ⟨by decide, rfl, ?_⟩
  intro h
  exact absurd (h.1 ⟨_, rfl⟩) (by decide)

/-- C6 (amended): on every grid and for every `i`, `FindNeighbors i` returns an
error exactly when `IsValidIndex i` is false, that is when `i < 0` or
`i >= TotalElements()`, where `TotalElements()` is the 64-bit product of the
dimensions, equal to `W*H` whenever `W*H` is in the signed 64-bit range; the
error is the invalid-index error with the index and the dimensions, and no
neighbour list is returned; on the 4x4 grid `-1`, `16` and `100` are rejected. -/
theorem findNeighbors_error_iff_int64 (tm : TorusMatrix) (i : Int) :
    ((∃ err, (NewNeighborFinder tm).FindNeighbors64 i = .error err) ↔
        tm.IsValidIndex64 i = false) ∧
      (tm.IsValidIndex64 i = false ↔ (i < 0 ∨ i ≥ tm.TotalElements64)) ∧
      tm.TotalElements64 = wrap64 (tm.width * tm.height) ∧
      (InInt64 (tm.width * tm.height) →
        (tm.IsValidIndex64 i = false ↔ (i < 0 ∨ i ≥ tm.width * tm.height))) ∧
      ((∃ neighbors, (NewNeighborFinder tm).FindNeighbors64 i = .ok neighbors) ↔
        tm.IsValidIndex64 i = true) ∧
      (tm.IsValidIndex64 i = false →
        (NewNeighborFinder tm).FindNeighbors64 i =
          .error (.invalidIndex i tm.width tm.height)) ∧
      (NewNeighborFinder ⟨4, 4⟩).FindNeighbors64 (-1) = .error (.invalidIndex (-1) 4 4) ∧
      (NewNeighborFinder ⟨4, 4⟩).FindNeighbors64 16 = .error (.invalidIndex 16 4 4) ∧
      (NewNeighborFinder ⟨4, 4⟩).FindNeighbors64 100 =
        .error (.invalidIndex 100 4 4) := by
  have hbad : tm.IsValidIndex64 i = false →
      (NewNeighborFinder tm).FindNeighbors64 i =
        .error (.invalidIndex i tm.width tm.height) := by
    intro hv
    simp [NeighborFinder.FindNeighbors64, NewNeighborFinder, hv]
  have hgood : tm.IsValidIndex64 i = true →
      ∃ neighbors, (NewNeighborFinder tm).FindNeighbors64 i = .ok neighbors := by
    intro hv
    obtain ⟨h0, h1⟩ := (isValidIndex64_iff tm i).1 hv
    have hin : ¬ (i < 0 ∨ i ≥ tm.TotalElements64) := by omega
    simp only [NeighborFinder.FindNeighbors64, NewNeighborFinder, hv,
      TorusMatrix.IndexToCoordinates64, if_neg hin, Bool.not_true, Bool.false_eq_true,
      if_false]
    exact ⟨_, rfl⟩
  have hrange : tm.IsValidIndex64 i = false ↔ (i < 0 ∨ i ≥ tm.TotalElements64) := by
    rw [← Bool.not_eq_true, isValidIndex64_iff]
    omega
  refine ⟨⟨?_, fun hv => ⟨_, hbad hv⟩⟩, hrange, rfl, ?_, ⟨?_, hgood⟩, hbad, rfl, rfl, rfl⟩
  · rintro ⟨err, herr⟩
    cases hv : tm.IsValidIndex64 i
    · rfl
    · obtain ⟨ns, hns⟩ := hgood hv
      rw [hns] at herr
      cases herr
  · intro hin
    have ht : tm.TotalElements64 = tm.width * tm.height := wrap64_eq _ hin
    rw [hrange, ht]
  · rintro ⟨ns, hns⟩
    cases hv : tm.IsValidIndex64 i
    · rw [hbad hv] at hns
      cases hns
    · rfl

/-- C10: for the 4x4 grid `GenerateMatrixString` is exactly the six lines
`15,12,13,14,15,12`, `3,0,1,2,3,0`, `7,4,5,6,7,4`, `11,8,9,10,11,8`,
`15,12,13,14,15,12`, `3,0,1,2,3,0` joined by single newlines, with no trailing
newline. -/
theorem generateMatrixString_4x4 :
    NewTorusMatrix 4 4 = .ok ⟨4, 4⟩ ∧
      (NewMatrixHasher ⟨4, 4⟩).GenerateMatrixString =
        "15,12,13,14,15,12\n3,0,1,2,3,0\n7,4,5,6,7,4\n11,8,9,10,11,8\n15,12,13,14,15,12\n3,0,1,2,3,0" ∧
      (NewMatrixHasher ⟨4, 4⟩).GenerateMatrixString =
        String.intercalate "\n"
          ["15,12,13,14,15,12", "3,0,1,2,3,0", "7,4,5,6,7,4", "11,8,9,10,11,8",
           "15,12,13,14,15,12", "3,0,1,2,3,0"] ∧
      (NewMatrixHasher ⟨4, 4⟩).GenerateMatrixString.data.getLast? = some '0' :=
  ⟨rfl, by decide, by decide, by decide⟩

/-- C11: `CalculateHash` is the standard padded base64 encoding of the SHA-256
digest of the UTF-8 bytes of `GenerateMatrixString`; for the 4x4 grid it is
`hJVz5fi5z2YecMNLsihGJQHBpAGUAYitNUOFGmjBg38=`.  The SHA-256 and base64 models are
pinned by the FIPS 180-4 vectors for `abc` and the empty message and by the
RFC 4648 vectors for `foobar`, `fooba` and `foob`. -/
theorem calculateHash_sha256_base64 :
    (∀ mh : MatrixHasher, mh.CalculateHash =
        String.mk (base64Encode (sha256Sum (stringBytes mh.GenerateMatrixString)))) ∧
      (NewMatrixHasher ⟨4, 4⟩).CalculateHash =
        "hJVz5fi5z2YecMNLsihGJQHBpAGUAYitNUOFGmjBg38=" ∧
      hexString (sha256Sum (stringBytes "abc")) =
        "ba7816bf8f01cfea414140de5dae2223b00361a396177a9cb410ff61f20015ad" ∧
      hexString (sha256Sum []) =
        "e3b0c44298fc1c149afbf4c8996fb92427ae41e4649b934ca495991b7852b855" ∧
      String.mk (base64Encode (stringBytes "foobar")) = "Zm9vYmFy" ∧
      String.mk (base64Encode (stringBytes "fooba")) = "Zm9vYmE=" ∧
      String.mk (base64Encode (stringBytes "foob")) = "Zm9vYg==" :=
  ⟨fun _ => rfl, calculateHash_4x4, by decide, by decide, by decide, by decide, by decide⟩

/-- Counterexample to C14 as stated: `NewTorusMatrix 2^32 2^32` succeeds but
`TotalElements()` of the grid is 0, not `width*height`. -/
theorem newTorusMatrix_iff_fails :
    NewTorusMatrix (2 ^ 32) (2 ^ 32) = .ok ⟨2 ^ 32, 2 ^ 32⟩ ∧
      (TorusMatrix.mk (2 ^ 32) (2 ^ 32)).TotalElements64 = 0 ∧
      (TorusMatrix.mk (2 ^ 32) (2 ^ 32)).TotalElements64 ≠ 2 ^ 32 * 2 ^ 32 := by
  refine ⟨rfl, totalElements64_wraps, ?_⟩
  rw [totalElements64_wraps]
  decide

/-- C14 (amended): `NewTorusMatrix width height` fails exactly when `width <= 0`
or `height <= 0`, with the invalid-dimensions error; when it succeeds,
`Dimensions` is `(width, height)`, both dimensions of the grid are positive, and
`TotalElements` is the 64-bit product of the dimensions, which is `width*height`
whenever that product is in the signed 64-bit range. -/
theorem newTorusMatrix_iff_int64 (width height : Int) :
    ((∃ err, NewTorusMatrix width height = .error err) ↔ (width ≤ 0 ∨ height ≤ 0)) ∧
      ((width ≤ 0 ∨ height ≤ 0) →
        NewTorusMatrix width height = .error (.invalidDimensions width height)) ∧
      ((∃ tm, NewTorusMatrix width height = .ok tm) ↔ (0 < width ∧ 0 < height)) ∧
      (∀ tm, NewTorusMatrix width height = .ok tm →
        tm.Dimensions = (width, height) ∧
        tm.TotalElements64 = wrap64 (width * height) ∧
        (InInt64 (width * height) → tm.TotalElements64 = width * height) ∧
        0 < tm.width ∧ 0 < tm.height) ∧
      (∃ tm, NewTorusMatrix 4 4 = .ok tm ∧ tm.Dimensions = (4, 4) ∧
        tm.TotalElements64 = 16) ∧
      NewTorusMatrix 0 4 = .error (.invalidDimensions 0 4) ∧
      NewTorusMatrix 4 (-1) = .error (.invalidDimensions 4 (-1)) := by
  obtain ⟨c1, c2, c3, c4, _, c6, c7⟩ := newTorusMatrix_iff_exact width height
  refine ⟨c1, c2, c3, ?_, ⟨⟨4, 4⟩, rfl, rfl, by decide⟩, c6, c7⟩
  intro tm htm
  obtain ⟨hdim, _, hwp, hhp⟩ := c4 tm htm
  have hwd : tm.width = width := congrArg Prod.fst hdim
  have hhd : tm.height = height := congrArg Prod.snd hdim
  have ht : tm.TotalElements64 = wrap64 (width * height) := by
    rw [← hwd, ← hhd]
    rfl
  exact ⟨hdim, ht, fun hin => by rw [ht, wrap64_eq _ hin], hwp, hhp⟩

/-- Counterexample to C15 as stated: on the grid `2^32 x 2^32`
`IndexToCoordinates 0` fails although neither `0 < 0` nor `0 >= W*H`. -/
theorem indexToCoordinates_iff_fails :
    ((0 : Int) < 2 ^ 32 ∧ ¬ ((0 : Int) < 0 ∨ (0 : Int) ≥ 2 ^ 32 * 2 ^ 32)) ∧
      (TorusMatrix.mk (2 ^ 32) (2 ^ 32)).IndexToCoordinates64 0 =
        .error (.indexOutOfBounds 0 (2 ^ 32) (2 ^ 32)) ∧
      ¬ ((∃ err, (TorusMatrix.mk (2 ^ 32) (2 ^ 32)).IndexToCoordinates64 0 = .error err) ↔
        ((0 : Int) < 0 ∨ (0 : Int) ≥ 2 ^ 32 * 2 ^ 32)) := by
  refine ⟨by decide, rfl, ?_⟩
  intro h
  exact absurd (h.1 ⟨_, rfl⟩) (by decide)

/-- C15 (amended): on a grid with positive width and height and for every `i`,
`IndexToCoordinates i` fails exactly when `i < 0` or `i >= TotalElements()`, which
is exactly when `IsValidIndex i` is false; `TotalElements()` is the 64-bit product
of the dimensions, equal to `W*H` whenever `W*H` is in the signed 64-bit range.
When it succeeds it returns `row = i / W` and `col = i % W`, with `0 <= row < H`
and `0 <= col < W`.  On the 4x4 grid `5 -> (1,1)`, `12 -> (3,0)`, `15 -> (3,3)`,
and `16` and `-1` are rejected. -/
theorem indexToCoordinates_iff_int64 (tm : TorusMatrix) (hW : 0 < tm.width)
    (hH : 0 < tm.height) (i : Int) :
    ((∃ err, tm.IndexToCoordinates64 i = .error err) ↔
        (i < 0 ∨ i ≥ tm.TotalElements64)) ∧
      ((i < 0 ∨ i ≥ tm.TotalElements64) ↔ tm.IsValidIndex64 i = false) ∧
      tm.TotalElements64 = wrap64 (tm.width * tm.height) ∧
      (InInt64 (tm.width * tm.height) → tm.TotalElements64 = tm.width * tm.height) ∧
      ((i < 0 ∨ i ≥ tm.TotalElements64) →
        tm.IndexToCoordinates64 i = .error (.indexOutOfBounds i tm.width tm.height)) ∧
      (tm.IsValidIndex64 i = true →
        tm.IndexToCoordinates64 i = .ok (div64 i tm.width, rem64 i tm.width)) ∧
      (∀ row col, tm.IndexToCoordinates64 i = .ok (row, col) →
        row = i.tdiv tm.width ∧ col = i.tmod tm.width ∧
        row = i / tm.width ∧ col = i % tm.width ∧
        0 ≤ row ∧ row < tm.height ∧ 0 ≤ col ∧ col < tm.width) ∧
      (TorusMatrix.mk 4 4).IndexToCoordinates64 5 = .ok (1, 1) ∧
      (TorusMatrix.mk 4 4).IndexToCoordinates64 12 = .ok (3, 0) ∧
      (TorusMatrix.mk 4 4).IndexToCoordinates64 15 = .ok (3, 3) ∧
      (TorusMatrix.mk 4 4).IndexToCoordinates64 16 = .error (.indexOutOfBounds 16 4 4) ∧
      (TorusMatrix.mk 4 4).IndexToCoordinates64 (-1) =
        .error (.indexOutOfBounds (-1) 4 4) := by
  have hbad : (i < 0 ∨ i ≥ tm.TotalElements64) →
      tm.IndexToCoordinates64 i = .error (.indexOutOfBounds i tm.width tm.height) := by
    intro h
    simp only [TorusMatrix.IndexToCoordinates64, if_pos h]
  have hvalid : (i < 0 ∨ i ≥ tm.TotalElements64) ↔ tm.IsValidIndex64 i = false := by
    rw [← Bool.not_eq_true, isValidIndex64_iff]
    omega
  have hgood : ¬ (i < 0 ∨ i ≥ tm.TotalElements64) →
      tm.IndexToCoordinates64 i = .ok (i.tdiv tm.width, i.tmod tm.width) := by
    intro h
    exact indexToCoordinates64_ok tm hW i (by omega) (by omega)
  refine ⟨?_, hvalid, rfl, fun hin => wrap64_eq _ hin, hbad, ?_, ?_, rfl, rfl, rfl, rfl,
    rfl⟩
  · by_cases h : i < 0 ∨ i ≥ tm.TotalElements64
    · exact ⟨fun _ => h, fun _ => ⟨_, hbad h⟩⟩
    · rw [hgood h]
      constructor
      · rintro ⟨err, herr⟩; cases herr
      · intro h'; exact absurd h' h
  · intro hv
    obtain ⟨h0, h1⟩ := (isValidIndex64_iff tm i).1 hv
    have hin : ¬ (i < 0 ∨ i ≥ tm.TotalElements64) := by omega
    simp only [TorusMatrix.IndexToCoordinates64, if_neg hin]
  · intro row col hok
    by_cases h : i < 0 ∨ i ≥ tm.TotalElements64
    · rw [hbad h] at hok
      cases hok
    · rw [hgood h] at hok
      cases hok
      have h0 : 0 ≤ i := by omega
      have hpos : 0 ≤ tm.width * tm.height := Int.le_of_lt (Int.mul_pos hW hH)
      have hle : tm.TotalElements64 ≤ tm.width * tm.height := wrap64_le _ hpos
      have h1 : i < tm.width * tm.height := by omega
      obtain ⟨hd, hm, hr0, hr1, hc0, hc1⟩ := index_row_col_range tm hW i h0 h1
      exact ⟨rfl, rfl, hd, hm, hd ▸ hr0, hd ▸ hr1, hm ▸ hc0, hm ▸ hc1⟩

/-- Witness of C15 (amended) on the 5x4 grid at index 17, which is row 3,
column 2. -/
theorem indexToCoordinates_iff_int64_witness :
    (TorusMatrix.mk 5 4).IndexToCoordinates64 17 =
      .ok (div64 17 (TorusMatrix.mk 5 4).width, rem64 17 (TorusMatrix.mk 5 4).width) :=
  (indexToCoordinates_iff_int64 ⟨5, 4⟩ (by decide) (by decide) 17).2.2.2.2.2.1 (by decide)

/-- C17: on the 1x1 grid `CoordinatesToIndex row col = 0` for all integers `row`
and `col`, so `FindNeighbors 0` is eight times the centre `0`, and the wrapped
matrix is the 3x3 matrix of zeros. -/
theorem degenerate_one_by_one :
    (∀ row col : Int, (TorusMatrix.mk 1 1).CoordinatesToIndex row col = 0) ∧
      NewTorusMatrix 1 1 = .ok ⟨1, 1⟩ ∧
      (NewNeighborFinder ⟨1, 1⟩).FindNeighbors 0 = .ok [0, 0, 0, 0, 0, 0, 0, 0] ∧
      (NewMatrixHasher ⟨1, 1⟩).GenerateWrappedMatrix =
        [[0, 0, 0], [0, 0, 0], [0, 0, 0]] := by
  refine ⟨fun row col => ?_, rfl, rfl, by decide⟩
  rw [coordinatesToIndex_eq ⟨1, 1⟩ (by decide) (by decide)]
  show row % 1 * 1 + col % 1 = 0
  omega

/-- C18: `AllDirections` has exactly 8 entries; its offset pairs are pairwise
distinct and are exactly the pairs of `{-1,0,1} x {-1,0,1}` other than `(0,0)`;
and they come in the order TopLeft, Top, TopRight, Left, Right, BottomLeft,
Bottom, BottomRight. -/
theorem allDirections_table :
    AllDirections.length = 8 ∧
      (AllDirections.map (fun d => (d.RowOffset, d.ColOffset))).Nodup ∧
      (∀ dr dc : Int,
        (dr, dc) ∈ AllDirections.map (fun d => (d.RowOffset, d.ColOffset)) ↔
          ((dr = -1 ∨ dr = 0 ∨ dr = 1) ∧ (dc = -1 ∨ dc = 0 ∨ dc = 1) ∧
            ¬ (dr = 0 ∧ dc = 0))) ∧
      AllDirections.map (fun d => (d.Name, d.RowOffset, d.ColOffset)) =
        [("TopLeft", -1, -1), ("Top", -1, 0), ("TopRight", -1, 1), ("Left", 0, -1),
         ("Right", 0, 1), ("BottomLeft", 1, -1), ("Bottom", 1, 0),
         ("BottomRight", 1, 1)] := by
  refine ⟨rfl, by decide, fun dr dc => ?_, rfl⟩
  simp only [AllDirections, List.map_cons, List.map_nil, List.mem_cons, List.mem_singleton,
    List.not_mem_nil, or_false, Prod.mk.injEq]
  omega

/-- Counterexample to C19 as stated: on the grid `(2^63 - 1) x 1` the columns `-2`
and `-2 + 1*W = 2^63 - 3` are one period apart, but `CoordinatesToIndex` gives
`2^63 - 3` for the first and `-4` for the second. -/
theorem coordinatesToIndex_periodic_fails :
    ((0 : Int) < 2 ^ 63 - 1 ∧ (0 : Int) < 1) ∧
      (TorusMatrix.mk (2 ^ 63 - 1) 1).CoordinatesToIndex64 0 (-2) = 2 ^ 63 - 3 ∧
      (TorusMatrix.mk (2 ^ 63 - 1) 1).CoordinatesToIndex64 (0 + 0 * 1)
        (-2 + 1 * (2 ^ 63 - 1)) = -4 ∧
      (TorusMatrix.mk (2 ^ 63 - 1) 1).CoordinatesToIndex64 (0 + 0 * 1)
          (-2 + 1 * (2 ^ 63 - 1)) ≠
        (TorusMatrix.mk (2 ^ 63 - 1) 1).CoordinatesToIndex64 0 (-2) := by
  decide

/-- C19 (amended): on a grid with positive width and height and fewer than `2^62`
cells, `CoordinatesToIndex` is periodic: for all integers `row`, `col`, `a`, `b`,
the arguments `row + a*H` and `col + b*W` (as exact values, in particular whenever
they are representable) give the same index as `row` and `col`.  In particular row
`H` behaves as row `0`, column `W` as column `0`, row `-1` as row `H-1` and column
`-1` as column `W-1`. -/
theorem coordinatesToIndex_periodic_int64 (tm : TorusMatrix) (hW : 0 < tm.width)
    (hH : 0 < tm.height) (hsize : tm.width * tm.height < 2 ^ 62) (row col a b : Int) :
    tm.CoordinatesToIndex64 (row + a * tm.height) (col + b * tm.width) =
        tm.CoordinatesToIndex64 row col ∧
      tm.CoordinatesToIndex64 tm.height col = tm.CoordinatesToIndex64 0 col ∧
      tm.CoordinatesToIndex64 row tm.width = tm.CoordinatesToIndex64 row 0 ∧
      tm.CoordinatesToIndex64 (-1) col = tm.CoordinatesToIndex64 (tm.height - 1) col ∧
      tm.CoordinatesToIndex64 row (-1) = tm.CoordinatesToIndex64 row (tm.width - 1) := by
  simp only [coordinatesToIndex64_eq tm hW hH hsize]
  exact coordinatesToIndex_periodic_exact tm hW hH row col a b

/-- Witness of C19 (amended) on the 5x4 grid: `(2 + 3*4, 1 + (-2)*5)` wraps to
`(2, 1)`. -/
theorem coordinatesToIndex_periodic_int64_witness :
    (TorusMatrix.mk 5 4).CoordinatesToIndex64 (2 + 3 * (TorusMatrix.mk 5 4).height)
        (1 + (-2) * (TorusMatrix.mk 5 4).width) =
      (TorusMatrix.mk 5 4).CoordinatesToIndex64 2 1 :=
  (coordinatesToIndex_periodic_int64 ⟨5, 4⟩ (by decide) (by decide) (by decide) 2 1 3
    (-2)).1

/-- C20: the wrapped matrix, the serialized string and the hash depend only on
the grid's dimensions: two hashers whose grids have equal width and equal height
(in particular the same hasher called again) give identical
`GenerateWrappedMatrix`, `GenerateMatrixString` and `CalculateHash`. -/
theorem hash_depends_on_dimensions_only (mh1 mh2 : MatrixHasher)
    (hw : mh1.matrix.width = mh2.matrix.width)
    (hh : mh1.matrix.height = mh2.matrix.height) :
    mh1.GenerateWrappedMatrix = mh2.GenerateWrappedMatrix ∧
      mh1.GenerateMatrixString = mh2.GenerateMatrixString ∧
      mh1.CalculateHash = mh2.CalculateHash := by
  obtain ⟨⟨w1, h1⟩⟩ := mh1
  obtain ⟨⟨w2, h2⟩⟩ := mh2
  simp only at hw hh
  subst hw
  subst hh
  exact ⟨rfl, rfl, rfl⟩

/-- Witness of C20: two grids built separately with the dimensions 4 and 4. -/
theorem hash_depends_on_dimensions_only_witness :
    (NewMatrixHasher ⟨4, 4⟩).GenerateWrappedMatrix =
        (NewMatrixHasher ⟨2 + 2, 2 * 2⟩).GenerateWrappedMatrix ∧
      (NewMatrixHasher ⟨4, 4⟩).GenerateMatrixString =
        (NewMatrixHasher ⟨2 + 2, 2 * 2⟩).GenerateMatrixString ∧
      (NewMatrixHasher ⟨4, 4⟩).CalculateHash =
        (NewMatrixHasher ⟨2 + 2, 2 * 2⟩).CalculateHash :=
  hash_depends_on_dimensions_only (NewMatrixHasher ⟨4, 4⟩) (NewMatrixHasher ⟨2 + 2, 2 * 2⟩)
    (by decide) (by decide)

/-- Counterexample to C21 as stated: on the grid `(2^63 - 1) x 1`
`CoordinatesToIndex 0 (2^63 - 3)` is `-4` and `IndexToCoordinates (-4)` fails. -/
theorem coordinates_index_roundtrip_fails :
    ((0 : Int) < 2 ^ 63 - 1 ∧ (0 : Int) < 1) ∧
      (TorusMatrix.mk (2 ^ 63 - 1) 1).IndexToCoordinates64
          ((TorusMatrix.mk (2 ^ 63 - 1) 1).CoordinatesToIndex64 0 (2 ^ 63 - 3)) =
        .error (.indexOutOfBounds (-4) (2 ^ 63 - 1) 1) ∧
      ¬ ∃ row col, (TorusMatrix.mk (2 ^ 63 - 1) 1).IndexToCoordinates64
          ((TorusMatrix.mk (2 ^ 63 - 1) 1).CoordinatesToIndex64 0 (2 ^ 63 - 3)) =
        .ok (row, col) := by
  have h : (TorusMatrix.mk (2 ^ 63 - 1) 1).IndexToCoordinates64
      ((TorusMatrix.mk (2 ^ 63 - 1) 1).CoordinatesToIndex64 0 (2 ^ 63 - 3)) =
      .error (.indexOutOfBounds (-4) (2 ^ 63 - 1) 1) := rfl
  refine ⟨by decide, h, ?_⟩
  rintro ⟨row, col, hok⟩
  rw [h] at hok
  cases hok

/-- C21 (amended): on a grid with positive width and height and fewer than `2^62`
cells and for all integers `row` and `col`,
`IndexToCoordinates (CoordinatesToIndex row col)` does not fail and is
`(row mod H, col mod W)` with the non-negative modulo; for `0 <= row < H` and
`0 <= col < W`, `CoordinatesToIndex row col = row*W + col` and
`IndexToCoordinates` gives `(row, col)` back. -/
theorem coordinates_index_roundtrip_int64 (tm : TorusMatrix) (hW : 0 < tm.width)
    (hH : 0 < tm.height) (hsize : tm.width * tm.height < 2 ^ 62) (row col : Int) :
    tm.IndexToCoordinates64 (tm.CoordinatesToIndex64 row col) =
        .ok (row % tm.height, col % tm.width) ∧
      row % tm.height = row.fmod tm.height ∧ col % tm.width = col.fmod tm.width ∧
      0 ≤ row % tm.height ∧ row % tm.height < tm.height ∧
      0 ≤ col % tm.width ∧ col % tm.width < tm.width ∧
      (0 ≤ row → row < tm.height → 0 ≤ col → col < tm.width →
        tm.CoordinatesToIndex64 row col = row * tm.width + col ∧
        tm.IndexToCoordinates64 (tm.CoordinatesToIndex64 row col) = .ok (row, col)) := by
  simp only [coordinatesToIndex64_eq tm hW hH hsize,
    indexToCoordinates64_eq tm hW hH hsize]
  exact coordinates_index_roundtrip_exact tm hW hH row col

/-- Witness of C21 (amended) on the 5x4 grid: `(-7, 23)` comes back as `(1, 3)`,
and the in-range `(3, 2)` comes back unchanged. -/
theorem coordinates_index_roundtrip_int64_witness :
    (TorusMatrix.mk 5 4).IndexToCoordinates64
        ((TorusMatrix.mk 5 4).CoordinatesToIndex64 (-7) 23) =
        .ok ((-7 : Int) % (TorusMatrix.mk 5 4).height,
          (23 : Int) % (TorusMatrix.mk 5 4).width) ∧
      ((TorusMatrix.mk 5 4).CoordinatesToIndex64 3 2 =
          3 * (TorusMatrix.mk 5 4).width + 2 ∧
        (TorusMatrix.mk 5 4).IndexToCoordinates64
          ((TorusMatrix.mk 5 4).CoordinatesToIndex64 3 2) = .ok (3, 2)) :=
  ⟨(coordinates_index_roundtrip_int64 ⟨5, 4⟩ (by decide) (by decide) (by decide) (-7)
      23).1,
    (coordinates_index_roundtrip_int64 ⟨5, 4⟩ (by decide) (by decide) (by decide) 3
      2).2.2.2.2.2.2.2 (by decide) (by decide) (by decide) (by decide)⟩

/-- Counterexample to C22 as stated: on the grid `2^32 x (2^32 + 1)` the valid
index 5 has the neighbours `[4, 5, 6, 4, 6, 2^32+4, 2^32+5, 2^32+6]`, which repeat
4 and 6 and contain the centre 5. -/
theorem findNeighbors_distinct_fails :
    ((3 : Int) ≤ 2 ^ 32 ∧ (3 : Int) ≤ 2 ^ 32 + 1 ∧ (0 : Int) ≤ 5 ∧
        (5 : Int) < 2 ^ 32 * (2 ^ 32 + 1) ∧
        (TorusMatrix.mk (2 ^ 32) (2 ^ 32 + 1)).IsValidIndex64 5 = true) ∧
      (NewNeighborFinder ⟨2 ^ 32, 2 ^ 32 + 1⟩).FindNeighbors64 5 =
        .ok [4, 5, 6, 4, 6, 2 ^ 32 + 4, 2 ^ 32 + 5, 2 ^ 32 + 6] ∧
      ¬ ([4, 5, 6, 4, 6, 2 ^ 32 + 4, 2 ^ 32 + 5, 2 ^ 32 + 6] : List Int).Nodup ∧
      (5 : Int) ∈ ([4, 5, 6, 4, 6, 2 ^ 32 + 4, 2 ^ 32 + 5, 2 ^ 32 + 6] : List Int) := by
  refine ⟨by decide, rfl, by decide, by decide⟩

/-- C22 (amended): on a grid with `W >= 3`, `H >= 3` and fewer than `2^62` cells
and for a valid index `i`, the 8 indices returned by `FindNeighbors i` are
pairwise distinct and none of them is `i`.  On the 3x1 grid this fails: index 2
gives `[1,2,0,1,0,1,2,0]`, which repeats entries and contains the centre. -/
theorem findNeighbors_distinct_int64 (tm : TorusMatrix) (hW : 3 ≤ tm.width)
    (hH : 3 ≤ tm.height) (hsize : tm.width * tm.height < 2 ^ 62) (i : Int) (h0 : 0 ≤ i)
    (h1 : i < tm.width * tm.height) :
    (∃ neighbors, (NewNeighborFinder tm).FindNeighbors64 i = .ok neighbors ∧
        neighbors.length = 8 ∧ neighbors.Nodup ∧ i ∉ neighbors) ∧
      (NewNeighborFinder ⟨3, 1⟩).FindNeighbors64 2 = .ok [1, 2, 0, 1, 0, 1, 2, 0] ∧
      ¬ ([1, 2, 0, 1, 0, 1, 2, 0] : List Int).Nodup ∧
      (2 : Int) ∈ ([1, 2, 0, 1, 0, 1, 2, 0] : List Int) := by
  rw [findNeighbors64_eq tm (by omega) (by omega) hsize,
    findNeighbors64_eq ⟨3, 1⟩ (by decide) (by decide) (by decide)]
  exact findNeighbors_distinct_exact tm hW hH i h0 h1

/-- Witness of C22 (amended) on the 4x4 grid at index 0. -/
theorem findNeighbors_distinct_int64_witness :
    ∃ neighbors, (NewNeighborFinder ⟨4, 4⟩).FindNeighbors64 0 = .ok neighbors ∧
      neighbors.length = 8 ∧ neighbors.Nodup ∧ (0 : Int) ∉ neighbors :=
  (findNeighbors_distinct_int64 ⟨4, 4⟩ (by decide) (by decide) (by decide) 0 (by decide)
    (by decide)).1

/-- Counterexample to C23 as stated: on the grid `(2^63 - 1) x 1` the 0-th
neighbour of the valid index `2^63 - 2` is `-4`, and `FindNeighbors (-4)` fails. -/
theorem findNeighbors_symmetric_fails :
    ((0 : Int) < 2 ^ 63 - 1 ∧ (0 : Int) < 1 ∧ (0 : Int) ≤ 2 ^ 63 - 2 ∧
        (2 ^ 63 - 2 : Int) < (2 ^ 63 - 1) * 1) ∧
      (∃ neighbors, (NewNeighborFinder ⟨2 ^ 63 - 1, 1⟩).FindNeighbors64 (2 ^ 63 - 2) =
          .ok neighbors ∧ neighbors[0]? = some (-4)) ∧
      (NewNeighborFinder ⟨2 ^ 63 - 1, 1⟩).FindNeighbors64 (-4) =
        .error (.invalidIndex (-4) (2 ^ 63 - 1) 1) ∧
      ¬ ∃ back, (NewNeighborFinder ⟨2 ^ 63 - 1, 1⟩).FindNeighbors64 (-4) = .ok back := by
  have h : (NewNeighborFinder ⟨2 ^ 63 - 1, 1⟩).FindNeighbors64 (-4) =
      .error (.invalidIndex (-4) (2 ^ 63 - 1) 1) := rfl
  refine ⟨by decide, ⟨_, findNeighbors64_wraps, rfl⟩, h, ?_⟩
  rintro ⟨back, hb⟩
  rw [h] at hb
  cases hb

/-- C23 (amended): on a grid with positive width and height and fewer than `2^62`
cells and for a valid index `i`, if `j` is the `k`-th element of `FindNeighbors i`
(`k` in `0..7`) then `FindNeighbors j` succeeds and its `(7-k)`-th element is `i`;
the directions at positions `k` and `7-k` are opposite.  Hence, for valid `i` and
`j`, `j` is among the neighbours of `i` exactly when `i` is among the neighbours
of `j`. -/
theorem findNeighbors_symmetric_int64 (tm : TorusMatrix) (hW : 0 < tm.width)
    (hH : 0 < tm.height) (hsize : tm.width * tm.height < 2 ^ 62) (i : Int) (h0 : 0 ≤ i)
    (h1 : i < tm.width * tm.height) :
    (∃ neighbors, (NewNeighborFinder tm).FindNeighbors64 i = .ok neighbors ∧
        ∀ (k : Nat) (j : Int), k < 8 → neighbors[k]? = some j →
          ∃ back, (NewNeighborFinder tm).FindNeighbors64 j = .ok back ∧
            back[7 - k]? = some i) ∧
      AllDirections.reverse.map (fun d => (d.RowOffset, d.ColOffset)) =
        AllDirections.map (fun d => (-d.RowOffset, -d.ColOffset)) ∧
      ∀ j : Int, 0 ≤ j → j < tm.width * tm.height →
        ((∃ neighbors, (NewNeighborFinder tm).FindNeighbors64 i = .ok neighbors ∧
            j ∈ neighbors) ↔
          (∃ back, (NewNeighborFinder tm).FindNeighbors64 j = .ok back ∧ i ∈ back)) := by
  simp only [findNeighbors64_eq tm hW hH hsize]
  exact findNeighbors_symmetric_exact tm hW hH i h0 h1

/-- Witness of C23 (amended) on the 3x1 grid at index 2, whose neighbours
repeat. -/
theorem findNeighbors_symmetric_int64_witness :
    ∃ neighbors, (NewNeighborFinder ⟨3, 1⟩).FindNeighbors64 2 = .ok neighbors ∧
      ∀ (k : Nat) (j : Int), k < 8 → neighbors[k]? = some j →
        ∃ back, (NewNeighborFinder ⟨3, 1⟩).FindNeighbors64 j = .ok back ∧
          back[7 - k]? = some 2 :=
  (findNeighbors_symmetric_int64 ⟨3, 1⟩ (by decide) (by decide) (by decide) 2 (by decide)
    (by decide)).1

/-- C25: with Go's `int` as a signed 64-bit integer, on a grid with `W > 0`,
`H > 0` and `W*H < 2^62` and for all `row` and `col` (so for all 64-bit ones, the
first operation on them being `%`), every intermediate
value of `CoordinatesToIndex` (`(row % H) + H`, `(col % W) + W`, `wrappedRow*W`,
`wrappedRow*W + wrappedCol`) is in the signed 64-bit range, so the machine result
is the exact `(row mod H)*W + (col mod W)`; and for a valid index
`centerRow + RowOffset` and `centerCol + ColOffset` are in range too, so the
machine `FindNeighbors` returns the exact list. -/
theorem no_overflow_int64 (tm : TorusMatrix) (hW : 0 < tm.width) (hH : 0 < tm.height)
    (hsize : tm.width * tm.height < 2 ^ 62) (row col : Int) :
    InInt64 tm.width ∧ InInt64 tm.height ∧ InInt64 (tm.width * tm.height) ∧
      InInt64 (row.tmod tm.height + tm.height) ∧
      InInt64 (col.tmod tm.width + tm.width) ∧
      InInt64 ((row.tmod tm.height + tm.height).tmod tm.height * tm.width) ∧
      InInt64 ((row.tmod tm.height + tm.height).tmod tm.height * tm.width +
        (col.tmod tm.width + tm.width).tmod tm.width) ∧
      tm.CoordinatesToIndex64 row col = tm.CoordinatesToIndex row col ∧
      tm.CoordinatesToIndex64 row col =
        row % tm.height * tm.width + col % tm.width ∧
      (∀ i : Int, 0 ≤ i → i < tm.width * tm.height → ∀ d ∈ AllDirections,
        InInt64 (i.tdiv tm.width + d.RowOffset) ∧
          InInt64 (i.tmod tm.width + d.ColOffset)) ∧
      ∀ i : Int,
        (NewNeighborFinder tm).FindNeighbors64 i = (NewNeighborFinder tm).FindNeighbors i := by
  obtain ⟨hWb, hHb⟩ := dimensions_lt tm hW hH hsize
  obtain ⟨_, _, s3, s4, _, _, s7, s8⟩ := coordinatesToIndex_steps tm hW hH hsize row col
  have hpos : 0 < tm.width * tm.height := Int.mul_pos hW hH
  refine ⟨?_, ?_, ?_, s3, s4, s7, s8, coordinatesToIndex64_eq tm hW hH hsize row col, ?_, ?_,
    fun i => findNeighbors64_eq tm hW hH hsize i⟩
  · unfold InInt64
    constructor <;> omega
  · unfold InInt64
    constructor <;> omega
  · unfold InInt64
    constructor <;> omega
  · rw [coordinatesToIndex64_eq tm hW hH hsize, coordinatesToIndex_eq tm hW hH]
  · intro i h0 h1 d hd
    have hoff : (-1 ≤ d.RowOffset ∧ d.RowOffset ≤ 1) ∧
        (-1 ≤ d.ColOffset ∧ d.ColOffset ≤ 1) := by
      simp only [AllDirections, List.mem_cons, List.mem_singleton, List.not_mem_nil,
        or_false] at hd
      rcases hd with h | h | h | h | h | h | h | h <;> rw [h] <;> decide
    exact ⟨(center_steps tm hW hH hsize i h0 h1 _ hoff.1.1 hoff.1.2).2.2.1,
      (center_steps tm hW hH hsize i h0 h1 _ hoff.2.1 hoff.2.2).2.2.2⟩

/-- Witness of C25 on the 5x4 grid at the extreme coordinates `-2^63` and
`2^63 - 1`. -/
theorem no_overflow_int64_witness :
    (TorusMatrix.mk 5 4).CoordinatesToIndex64 (-(2 ^ 63)) (2 ^ 63 - 1) =
      (TorusMatrix.mk 5 4).CoordinatesToIndex (-(2 ^ 63)) (2 ^ 63 - 1) :=
  (no_overflow_int64 ⟨5, 4⟩ (by decide) (by decide) (by decide) (-(2 ^ 63))
    (2 ^ 63 - 1)).2.2.2.2.2.2.2.1

/-- C26: the defensive error branches are unreachable.  Once `IsValidIndex i` is
true `IndexToCoordinates i` does not fail, so `FindNeighbors` never returns its
`failed to convert index to coordinates` error; and on a constructed grid
`FindNeighbors` does not fail once `IsValidIndex targetIndex` is true, so
`ComputeSolution` never returns its `failed to find neighbors` error. -/
theorem defensive_branches_unreachable :
    (∀ (tm : TorusMatrix) (i : Int), tm.IsValidIndex i = true →
        tm.IndexToCoordinates i = .ok (i.tdiv tm.width, i.tmod tm.width)) ∧
      (∀ (tm : TorusMatrix) (i : Int) (inner : Error),
        (NewNeighborFinder tm).FindNeighbors i ≠ .error (.convertFailed inner)) ∧
      (∀ (width height targetIndex : Int) (tm : TorusMatrix),
        NewTorusMatrix width height = .ok tm → tm.IsValidIndex targetIndex = true →
        ∃ neighbors, (NewNeighborFinder tm).FindNeighbors targetIndex = .ok neighbors) ∧
      (∀ (width height targetIndex : Int) (inner : Error),
        ComputeSolution width height targetIndex ≠ .error (.findNeighborsFailed inner)) ∧
      (∀ inner : Error, (Error.convertFailed inner).message =
        "failed to convert index to coordinates: " ++ inner.message) ∧
      (∀ inner : Error, (SolverError.findNeighborsFailed inner).message =
        "failed to find neighbors: " ++ inner.message) := by
  refine ⟨?_, ?_, ?_, ?_, fun _ => rfl, fun _ => rfl⟩
  · intro tm i hv
    obtain ⟨h0, h1⟩ := (isValidIndex_iff tm i).1 hv
    exact indexToCoordinates_ok tm i h0 h1
  · intro tm i inner h
    cases hv : tm.IsValidIndex i
    · have hbad : (NewNeighborFinder tm).FindNeighbors i =
          .error (.invalidIndex i tm.width tm.height) := by
        simp [NeighborFinder.FindNeighbors, NewNeighborFinder, hv]
      rw [hbad] at h
      cases h
    · obtain ⟨h0, h1⟩ := (isValidIndex_iff tm i).1 hv
      rw [findNeighbors_ok tm i h0 h1] at h
      cases h
  · intro width height targetIndex tm _ hv
    obtain ⟨h0, h1⟩ := (isValidIndex_iff tm targetIndex).1 hv
    exact ⟨_, findNeighbors_ok tm targetIndex h0 h1⟩
  · intro width height targetIndex inner h
    by_cases hd : width ≤ 0 ∨ height ≤ 0
    · rw [computeSolution_bad_dimensions width height targetIndex hd] at h
      cases h
    · have hw : 0 < width := by omega
      have hh : 0 < height := by omega
      by_cases hi : targetIndex < 0 ∨ targetIndex ≥ width * height
      · rw [computeSolution_bad_index width height targetIndex hw hh hi] at h
        cases h
      · have h0 : 0 ≤ targetIndex := by omega
        have h1 : targetIndex < width * height := by omega
        rw [computeSolution_ok width height targetIndex hw hh h0 h1 _
          (findNeighbors_ok ⟨width, height⟩ targetIndex h0 h1)] at h
        cases h

end Torus
